import Mathlib

/-!
Verification of the pokedat text-container codec.

This file gives a shallow embedding of the Python sources
(`text_file.py`, `text_config.py`, `utilities.py`) and proves or refutes
the frozen claims about them.  Byte buffers are `List Nat` (each element a
byte value), Python strings are `List Nat` of Unicode code points (Python
`str` is a sequence of code points, including lone surrogates, so Lean
`String` is not a faithful model).  Fallible operations (`struct` errors,
`ValueError`, index errors) are modelled with `Option`/`Except`.
-/

/-- Python strings modelled as their sequence of Unicode code points. -/
abbrev PyStr := List Nat

/-- Code points of a Lean string literal, for readable `PyStr` constants. -/
def codes (s : String) : PyStr := s.data.map Char.toNat

/-- struct.unpack_from of a little-endian u16 at byte offset `i`;
`none` models the struct.error raised when the buffer is too short. -/
def readU16 (d : List Nat) (i : Nat) : Option Nat :=
  match d[i]?, d[i+1]? with
  | some a, some b => some (a + 256 * b)
  | _, _ => none

/-- struct.unpack_from of a little-endian u32 at byte offset `i`. -/
def readU32 (d : List Nat) (i : Nat) : Option Nat :=
  match readU16 d i, readU16 d (i+2) with
  | some a, some b => some (a + 65536 * b)
  | _, _ => none

/-- struct.unpack_from of a little-endian signed i32 at byte offset `i`. -/
def readI32 (d : List Nat) (i : Nat) : Option Int :=
  match readU32 d i with
  | none => none
  | some v => some (if v < 2 ^ 31 then (v : Int) else (v : Int) - 2 ^ 32)

/-- struct.pack_into of a little-endian u16 (values are in range at every
call site in the modelled code paths). -/
def writeU16 (d : List Nat) (i : Nat) (v : Nat) : List Nat :=
  (d.set i (v % 256)).set (i+1) (v / 256 % 256)

/-- struct.pack_into of a little-endian u32. -/
def writeU32 (d : List Nat) (i : Nat) (v : Nat) : List Nat :=
  writeU16 (writeU16 d i (v % 65536)) (i+2) (v / 65536 % 65536)

/-- In-place copy of a run of bytes at offset `i` (Python slice assignment
with a slice of the run's own length, as in the `line_data` setter). -/
def writeBytes (d : List Nat) (i : Nat) : List Nat → List Nat
  | [] => d
  | b :: rest => writeBytes (d.set i b) (i+1) rest

/-- Little-endian bytes of one u16 value. -/
def u16le (v : Nat) : List Nat := [v % 256, v / 256 % 256]

/-- Little-endian bytes of one u32 value. -/
def u32le (v : Nat) : List Nat :=
  [v % 256, v / 256 % 256, v / 65536 % 256, v / 16777216 % 256]

/-- struct.pack of a sequence of little-endian u16 values. -/
def packU16 (vs : List Nat) : List Nat := vs.flatMap u16le

-- Constants from text_file.py
def BASE_KEY : Nat := 0x7C89
def ADVANCE_KEY : Nat := 0x2983
def VARIABLE_KEY : Nat := 0x0010
def TERMINATOR_KEY : Nat := 0x0000
def RETURN_TEXT_KEY : Nat := 0xBE00
def CLEAR_TEXT_KEY : Nat := 0xBE01
def WAIT_TEXT_KEY : Nat := 0xBE02
def NULL_TEXT_KEY : Nat := 0xBDFF
def RUBY_TEXT_KEY : Nat := 0xFF01

/-- The 20-byte default empty text file data. -/
def EMPTY_TEXT_FILE : List Nat :=
  [0x01, 0x00, 0x00, 0x00, 0x04, 0x00, 0x00, 0x00,
   0x00, 0x00, 0x00, 0x00, 0x10, 0x00, 0x00, 0x00,
   0x04, 0x00, 0x00, 0x00]

/-- The within-line key step of TextFile.encrypt_line_data: rotate left by
3 within 16 bits. -/
def rotKey (key : Nat) : Nat := ((key <<< 3) ||| (key >>> 13)) &&& 0xFFFF

/-- TextFile.encrypt_line_data: XOR each little-endian 16-bit word with the
rolling key, the key rotating left by 3 bits within 16 bits after each
word.  `none` models the struct.error raised on an odd-length buffer, or
when packing a word that exceeds 16 bits (possible only for a key or
buffer contents already out of range). -/
def encrypt_line_data : List Nat → Nat → Option (List Nat)
  | [], _ => some []
  | [_], _ => none
  | a :: b :: rest, key =>
    let x := (a + 256 * b) ^^^ key
    if x < 65536 then
      match encrypt_line_data rest (rotKey key) with
      | some r => some (x % 256 :: x / 256 % 256 :: r)
      | none => none
    else none

theorem rotKey_lt (key : Nat) : rotKey key < 65536 := by
  have h := @Nat.and_le_right ((key <<< 3) ||| (key >>> 13)) 0xFFFF
  unfold rotKey
  omega

theorem xor_lt_65536 {a b : Nat} (ha : a < 65536) (hb : b < 65536) :
    a ^^^ b < 65536 := by
  have h : a ^^^ b < 2 ^ 16 :=
    Nat.xor_lt_two_pow (by norm_num [ha]) (by norm_num [hb])
  omega

/-- C2 helper: the cipher is an involution on even-length byte buffers with
a 16-bit key. -/
theorem encrypt_line_data_involutive : ∀ (b : List Nat) (k : Nat),
    (∀ x ∈ b, x < 256) → k < 65536 → b.length % 2 = 0 →
    (encrypt_line_data b k).bind (fun e => encrypt_line_data e k) = some b
  | [], _, _, _, _ => rfl
  | [_], _, _, _, he => by simp at he
  | a :: c :: rest, k, hb, hk, he => by
    have ha : a < 256 := hb a (by simp)
    have hc : c < 256 := hb c (by simp)
    have hw : a + 256 * c < 65536 := by omega
    have hx : (a + 256 * c) ^^^ k < 65536 := xor_lt_65536 hw hk
    have hrest : rest.length % 2 = 0 := by
      simp only [List.length_cons] at he; omega
    have hbrest : ∀ x ∈ rest, x < 256 := fun x hx => hb x (by simp [hx])
    have ih := encrypt_line_data_involutive rest (rotKey k) hbrest (rotKey_lt k) hrest
    -- the inner pass on `rest` must succeed, extract its value
    cases hrec : encrypt_line_data rest (rotKey k) with
    | none =>
      rw [hrec] at ih
      simp only [Option.none_bind] at ih
      exact Option.noConfusion ih
    | some r =>
      rw [hrec] at ih
      simp only [Option.some_bind] at ih
      set x := (a + 256 * c) ^^^ k with hxdef
      have hdecomp : x % 256 + 256 * (x / 256 % 256) = x := by omega
      have hx2 : x % 256 + 256 * (x / 256 % 256) ^^^ k < 65536 := by
        rw [hdecomp, hxdef, Nat.xor_assoc, Nat.xor_self, Nat.xor_zero]
        exact hw
      simp only [encrypt_line_data, hrec, if_pos hx, Option.some_bind]
      rw [hdecomp, hxdef, Nat.xor_assoc, Nat.xor_self, Nat.xor_zero]
      simp only [encrypt_line_data, if_pos hw, ih]
      have hlo : (a + 256 * c) % 256 = a := by omega
      have hhi : (a + 256 * c) / 256 % 256 = c := by omega
      rw [hlo, hhi]

/-- C2: applying the line cipher twice with the same 16-bit initial key on
an even-length byte buffer returns the original buffer
(`line_cipher(line_cipher(b, k), k) = b`). -/
theorem c2_cipher_involutive (b : List Nat) (k : Nat)
    (hbytes : ∀ x ∈ b, x < 256) (hkey : k < 65536) (heven : b.length % 2 = 0) :
    (encrypt_line_data b k).bind (fun e => encrypt_line_data e k) = some b :=
  encrypt_line_data_involutive b k hbytes hkey heven

/-- Witness for C2 at the concrete buffer [0x48, 0x69, 0x21, 0x00] and the
base key 0x7C89. -/
theorem c2_cipher_involutive_witness :
    (encrypt_line_data [0x48, 0x69, 0x21, 0x00] BASE_KEY).bind
      (fun e => encrypt_line_data e BASE_KEY) = some [0x48, 0x69, 0x21, 0x00] :=
  c2_cipher_involutive [0x48, 0x69, 0x21, 0x00] BASE_KEY
    (by decide) (by decide) (by decide)

/-- The LGPE game variable table, in declaration order (text_config.py). -/
def lgpeVars : List (Nat × String) :=
  [(0xFF00, "COLOR"),
   (0x0100, "TRNAME"),
   (0x0101, "POKNAME"),
   (0x0102, "PKNICK"),
   (0x0103, "TYPE"),
   (0x0104, "SPECIES"),
   (0x0105, "LOCATION"),
   (0x0106, "ABILITY"),
   (0x0107, "MOVE"),
   (0x0108, "ITEM1"),
   (0x0109, "ITEM2"),
   (0x010B, "GERM00"),
   (0x010C, "PKMLVUP"),
   (0x010D, "EVSTAT"),
   (0x010E, "TRCLASS"),
   (0x0110, "GERM01"),
   (0x0112, "BAG"),
   (0x010A, "ITEMBAG"),
   (0x012D, "FORBIDDENCHAR"),
   (0x012E, "MISTERYCAP"),
   (0x01B0, "WBALLTYPE"),
   (0x01B1, "STPKM"),
   (0x01C6, "STYLEITEM"),
   (0x01C9, "PGOTRAINER"),
   (0x01C8, "SUPPORT"),
   (0x01CA, "GIFT00"),
   (0x01CB, "GOPARKLOCAL"),
   (0x01CC, "GOPARKPKM"),
   (0x01CE, "PKMPKEVEE"),
   (0x01CD, "RIVALNAME"),
   (0x019E, "FR|GER|SPA"),
   (0x1000, "NUM0"),
   (0x1001, "NUM10"),
   (0x1002, "FRAITA"),
   (0x1100, "GENDBR"),
   (0x1101, "ITEMPLUR1"),
   (0x1102, "FRAITA01"),
   (0x1104, "GARTFR"),
   (0x1302, "INDEF_ART"),
   (0x1303, "AMOUNT"),
   (0x1400, "ARTFRA"),
   (0x1401, "DARTFRA"),
   (0x1402, "INARTFRA"),
   (0x1403, "VARFRA00"),
   (0x1404, "VARFRA01"),
   (0x1406, "VARFRA02"),
   (0x1408, "VARFRA03"),
   (0x140A, "VARFRA03"),
   (0x1500, "VARITA00"),
   (0x1501, "VARITA01"),
   (0x1502, "VARITA02"),
   (0x1503, "VARITA03"),
   (0x1504, "VARITA04"),
   (0x1506, "VARITA05"),
   (0x1508, "VARITA06"),
   (0x150A, "VARITA07"),
   (0x1603, "VARGER00"),
   (0x1606, "VARGER01"),
   (0x1700, "VARESP00"),
   (0x1701, "VARESP01"),
   (0x1702, "VARESP02"),
   (0x1704, "VARESP03"),
   (0x1706, "VARESP04"),
   (0x1708, "VARESP05"),
   (0x1709, "VARESP06"),
   (0x1900, "VARKOR00"),
   (0x0200, "NUM1"),
   (0x0201, "NUM2"),
   (0x0202, "NUM3"),
   (0x0203, "NUM4"),
   (0x0204, "NUM5"),
   (0x0205, "NUM6"),
   (0x0206, "NUM7"),
   (0x0207, "NUM8"),
   (0x0208, "NUM9"),
   (0x0189, "UNKNOWNPOKEMON"),
   (0xBD03, "SYMBOL"),
   (0xBD04, "BTLTPFX"),
   (0xBD06, "BTEFECT"),
   (0xBE05, "SFX"),
   (0xE300, "₽")]

/-- The SWSH game variable table. -/
def swshVars : List (Nat × String) := [(0xFF00, "COLOR")]

/-- The LA game variable table. -/
def laVars : List (Nat × String) := [(0xFF00, "COLOR")]

/-- The SV game variable table. -/
def svVars : List (Nat × String) := [(0xFF00, "COLOR")]

/-- The LZA game variable table, in declaration order. -/
def lzaVars : List (Nat × String) :=
  [(0xFF00, "COLOR"),
   (0x0100, "TRNAME"),
   (0x0101, "POKNAME"),
   (0x0102, "PKNICK"),
   (0x0103, "TYPE"),
   (0x0104, "SPECIES"),
   (0x0105, "LOCATION"),
   (0x0106, "ABILITY"),
   (0x0107, "MOVE"),
   (0x0108, "ITEM1"),
   (0x0109, "ITEM2"),
   (0xE300, "₽"),
   (0x1100, "GENDBR")]

/-- GAME_VARIABLES from text_config.py: per-game variable tables. -/
def GAME_VARIABLES : List (String × List (Nat × String)) :=
  [("LGPE", lgpeVars), ("SWSH", swshVars), ("LA", laVars),
   ("SV", svVars), ("LZA", lzaVars)]

/-- TextConfig: the active variable table for a game version.  The field
models self.variables (the identifier itself is reserved in Lean 4). -/
structure TextConfig where
  vars : List (Nat × String)
deriving Repr

/-- TextConfig.__init__ plus TextConfig.get_variables: look up the game's
table (empty for unknown games) and reject empty tables. -/
def TextConfig.ofGame (game : String) : Except String TextConfig :=
  let vars := ((GAME_VARIABLES.find? (fun p => p.1 == game)).map (fun p => p.2)).getD []
  if vars.isEmpty then Except.error "Game version is not supported."
  else Except.ok ⟨vars⟩

/-- The LGPE configuration (construction succeeds on "LGPE"). -/
def lgpeConfig : TextConfig := ⟨lgpeVars⟩

/-- Value of an uppercase hexadecimal digit character. -/
def hexDigit (n : Nat) : Nat := if n < 10 then 48 + n else 55 + n

/-- Most-significant-first hexadecimal digits; fuel-bounded recursion on
the quotient (fuel `n` always suffices). -/
def hexCore : Nat → Nat → PyStr
  | 0, _ => []
  | _, 0 => []
  | f+1, n => hexCore f (n / 16) ++ [hexDigit (n % 16)]

/-- Python f-string 04X formatting: uppercase hex, zero-padded to width 4. -/
def hex4 (v : Nat) : PyStr :=
  let d := hexCore v v
  List.replicate (4 - d.length) 48 ++ d

/-- Python decimal rendering of a natural number. -/
def decRepr (n : Nat) : PyStr := codes (toString n)

/-- TextConfig.get_variable_string: the mapped name for a code, or its
4-digit uppercase hexadecimal representation when unmapped. -/
def get_variable_string (vars : List (Nat × String)) (code : Nat) : PyStr :=
  match vars.find? (fun p => p.1 == code) with
  | some p => codes p.2
  | none => hex4 code

/-- Value of a hexadecimal digit code point, if it is one. -/
def hexDigitVal? (c : Nat) : Option Nat :=
  if 48 ≤ c ∧ c ≤ 57 then some (c - 48)
  else if 65 ≤ c ∧ c ≤ 70 then some (c - 55)
  else if 97 ≤ c ∧ c ≤ 102 then some (c - 87)
  else none

/-- Python int(s, 16) as used by get_variable_number: an optional 0x/0X
prefix followed by at least one hexadecimal digit. -/
def parseHexNat? (s : PyStr) : Option Nat :=
  let core := if s.take 2 = codes "0x" ∨ s.take 2 = codes "0X" then s.drop 2 else s
  if core.isEmpty then none
  else core.foldl (fun acc c => acc.bind (fun a => (hexDigitVal? c).map (fun d => a * 16 + d))) (some 0)

/-- Python int(s) base 10 as used for WAIT and line cross-reference
arguments: at least one decimal digit. -/
def parseDecNat? (s : PyStr) : Option Nat :=
  if s.isEmpty then none
  else s.foldl (fun acc c => acc.bind (fun a =>
    if 48 ≤ c ∧ c ≤ 57 then some (a * 10 + (c - 48)) else none)) (some 0)

/-- TextConfig.get_variable_number: scan the table in declaration order for
the first name match, then fall back to hexadecimal parsing. -/
def get_variable_number (cfg : TextConfig) (name : PyStr) : Except String Nat :=
  match cfg.vars.find? (fun p => codes p.2 == name) with
  | some p => Except.ok p.1
  | none =>
    match parseHexNat? name with
    | some v => Except.ok v
    | none => Except.error "Invalid variable"

/-- str.find(c, start) restricted to one code point, as an optional index. -/
def pyFind (l : PyStr) (c : Nat) : Option Nat := l.findIdx? (fun x => x == c)

/-- str.split(c) on one code point; like Python, the empty string yields
one empty part and separators at the ends yield empty parts. -/
def pySplit (c : Nat) (l : PyStr) : List PyStr :=
  l.foldr (fun x acc =>
    if x = c then [] :: acc
    else match acc with
      | h :: t => (x :: h) :: t
      | [] => [[x]]) [[]]

/-- str.rstrip of one code point. -/
def pyRstrip (c : Nat) (l : PyStr) : PyStr :=
  (l.reverse.dropWhile (fun x => x == c)).reverse

/-- Python str.isspace code points (the set stripped by str.strip()). -/
def isPySpace (c : Nat) : Bool :=
  (9 ≤ c && c ≤ 13) || (28 ≤ c && c ≤ 31) || c == 32 || c == 0x85 || c == 0xA0 ||
  c == 0x1680 || (0x2000 ≤ c && c ≤ 0x200A) || c == 0x2028 || c == 0x2029 ||
  c == 0x202F || c == 0x205F || c == 0x3000

/-- Python str.strip(): remove leading and trailing whitespace. -/
def pyStrip (l : PyStr) : PyStr :=
  ((l.dropWhile isPySpace).reverse.dropWhile isPySpace).reverse

/-- REMAP_CHAR_MAP from text_file.py. -/
def REMAP_CHAR_MAP : List (Nat × Nat) :=
  [(0xE07F, 0x202F), (0xE08D, 0x2026), (0xE08E, 0x2642), (0xE08F, 0x2640)]

/-- TextFile.try_remap_character: apply REMAP_CHAR_MAP when remapping is
enabled, identity otherwise. -/
def try_remap_character (remap : Bool) (v : Nat) : Nat :=
  if remap then (((REMAP_CHAR_MAP.find? (fun p => p.1 == v)).map (fun p => p.2)).getD v)
  else v

/-- TextFile.parse_escape_values: the escape table used during encode. -/
def parse_escape_values (esc : Nat) : Except String (List Nat) :=
  if esc = 110 then Except.ok [0x0A]
  else if esc = 92 then Except.ok [92]
  else if esc = 91 then Except.ok [91]
  else if esc = 123 then Except.ok [123]
  else if esc = 114 then Except.ok [VARIABLE_KEY, 1, RETURN_TEXT_KEY]
  else if esc = 99 then Except.ok [VARIABLE_KEY, 1, CLEAR_TEXT_KEY]
  else Except.error "Invalid escape character"

/-- TextFile.parse_variable_values: convert the text between square
brackets into its code-unit list. -/
def parse_variable_values (cfg : TextConfig) (text : PyStr) : Except String (List Nat) :=
  match pyFind text 32 with
  | none => Except.error "Malformed variable"
  | some sp =>
    let command := text.take sp
    let args := text.drop (sp + 1)
    if command = codes "~" then
      match parseDecNat? args with
      | some d => Except.ok [VARIABLE_KEY, 2, NULL_TEXT_KEY, d]
      | none => Except.error "invalid literal for int"
    else if command = codes "WAIT" then
      match parseDecNat? args with
      | some d => Except.ok [VARIABLE_KEY, 2, WAIT_TEXT_KEY, d]
      | none => Except.error "invalid literal for int"
    else if command = codes "VAR" then
      match pyFind args 40 with
      | some p =>
        let var := args.take p
        let argList := pySplit 44 (pyRstrip 41 (args.drop (p + 1)))
        match get_variable_number cfg var with
        | Except.error e => Except.error e
        | Except.ok num =>
          match argList.mapM parseHexNat? with
          | some vals => Except.ok ([VARIABLE_KEY, 1 + argList.length, num] ++ vals)
          | none => Except.error "invalid literal for int"
      | none =>
        match get_variable_number cfg args with
        | Except.error e => Except.error e
        | Except.ok num => Except.ok [VARIABLE_KEY, 1, num]
    else Except.error "Unknown variable type"

/-- C9: the name-to-code lookup is deterministic under the duplicate name
VARFRA03 of the LGPE table (both 0x1408 and 0x140A map to it): it returns
the first entry in declaration order, and encoding the token body
VAR VARFRA03 emits variable code 0x1408. -/
theorem c9_first_declaration_wins :
    (0x1408, "VARFRA03") ∈ lgpeVars ∧ (0x140A, "VARFRA03") ∈ lgpeVars ∧
    get_variable_number lgpeConfig (codes "VARFRA03") = Except.ok 0x1408 ∧
    parse_variable_values lgpeConfig (codes "VAR VARFRA03") =
      Except.ok [VARIABLE_KEY, 1, 0x1408] := by
  refine ⟨by decide, by decide, by rfl, by rfl⟩

/-- Read `n` consecutive u16 arguments starting at byte offset `i`. -/
def readArgs (data : List Nat) : Nat → Nat → Option (List Nat)
  | _, 0 => some []
  | i, n+1 =>
    match readU16 data i with
    | none => none
    | some a =>
      match readArgs data (i+2) n with
      | none => none
      | some r => some (a :: r)

mutual

/-- The while loop of TextFile.parse_line_string, reading code units from
byte offset `i`.  Fuel bounds the recursion; parse_line_string supplies
enough for any input (each step consumes at least one code unit and the
ruby runs are sub-slices).  `none` models a struct.error. -/
def parseLoop (cfg : TextConfig) (remap : Bool) : Nat → List Nat → Nat → Option PyStr
  | 0, _, _ => none
  | fuel+1, data, i =>
    if i < data.length then
      match readU16 data i with
      | none => none
      | some v =>
        if v = TERMINATOR_KEY then some []
        else if v = VARIABLE_KEY then
          match parseVar cfg remap fuel data (i + 2) with
          | none => none
          | some sc =>
            match parseLoop cfg remap fuel data (i + 2 + sc.2) with
            | none => none
            | some r => some (sc.1 ++ r)
        else
          let piece : PyStr :=
            if v = 0x0A then codes "\\n"
            else if v = 92 then codes "\\\\"
            else if v = 91 then codes "\\["
            else if v = 123 then codes "\\\x7b"
            else
              let mapped := get_variable_string cfg.vars v
              if mapped ≠ hex4 v then mapped
              else [try_remap_character remap v]
          match parseLoop cfg remap fuel data (i + 2) with
          | none => none
          | some r => some (piece ++ r)
    else some []

/-- TextFile.parse_variable_string: the decoded text of one variable token
(the marker 0x0010 already consumed; `i` points at the count field)
together with the number of bytes consumed after the marker. -/
def parseVar (cfg : TextConfig) (remap : Bool) : Nat → List Nat → Nat → Option (PyStr × Nat)
  | 0, _, _ => none
  | fuel+1, data, i =>
    match readU16 data i with
    | none => none
    | some count =>
      match readU16 data (i+2) with
      | none => none
      | some varCode =>
        if varCode = RETURN_TEXT_KEY then some (codes "\\r", 4)
        else if varCode = CLEAR_TEXT_KEY then some (codes "\\c", 4)
        else if varCode = WAIT_TEXT_KEY then
          match readU16 data (i+4) with
          | none => none
          | some time => some (codes "[WAIT " ++ decRepr time ++ codes "]", 6)
        else if varCode = NULL_TEXT_KEY then
          match readU16 data (i+4) with
          | none => none
          | some line => some (codes "[~ " ++ decRepr line ++ codes "]", 6)
        else if varCode = RUBY_TEXT_KEY then
          match readU16 data (i+4) with
          | none => none
          | some baseLen =>
            match readU16 data (i+6) with
            | none => none
            | some rubyLen =>
              let base1 := (data.drop (i+8)).take (baseLen * 2)
              let ruby := (data.drop (i + 8 + baseLen * 2)).take (rubyLen * 2)
              let base2 := (data.drop (i + 8 + baseLen * 2 + rubyLen * 2)).take (baseLen * 2)
              let consumed := 8 + baseLen * 2 + rubyLen * 2 + baseLen * 2
              match parseLoop cfg remap fuel base1 0 with
              | none => none
              | some s1 =>
                match parseLoop cfg remap fuel ruby 0 with
                | none => none
                | some sr =>
                  if base1 ≠ base2 then
                    match parseLoop cfg remap fuel base2 0 with
                    | none => none
                    | some s2 =>
                      some (codes "\x7b" ++ s1 ++ codes "|" ++ sr ++ codes "|" ++ s2 ++ codes "\x7d", consumed)
                  else some (codes "\x7b" ++ s1 ++ codes "|" ++ sr ++ codes "\x7d", consumed)
        else
          let varName := get_variable_string cfg.vars varCode
          if 1 < count then
            match readArgs data (i+4) (count - 1) with
            | none => none
            | some args =>
              some (codes "[VAR " ++ varName ++ codes "(" ++
                List.intercalate (codes ",") (args.map hex4) ++ codes ")]", 4 + 2 * (count - 1))
          else some (codes "[VAR " ++ varName ++ codes "]", 4)

end

/-- TextFile.parse_line_string: decode a decrypted byte buffer into its
readable string (a code-point sequence). -/
def parse_line_string (cfg : TextConfig) (remap : Bool) (data : List Nat) : Option PyStr :=
  parseLoop cfg remap (data.length * data.length + data.length + 2) data 0

/-- TextFile.parse_ruby_values: convert the text between curly brackets
into its code-unit list; the error strings stand for the ValueError
messages without their interpolated text. -/
def parse_ruby_values (remap : Bool) (text : PyStr) : Except String (List Nat) :=
  match pySplit 124 text with
  | [base1, ruby] =>
    Except.ok ([VARIABLE_KEY, 3 + base1.length + ruby.length, RUBY_TEXT_KEY,
        base1.length, ruby.length]
      ++ base1.map (try_remap_character remap) ++ ruby.map (try_remap_character remap)
      ++ base1.map (try_remap_character remap))
  | [base1, ruby, base2] =>
    if base1.length ≠ base2.length then Except.error "Ruby base texts mismatch"
    else
      Except.ok ([VARIABLE_KEY, 3 + base1.length + ruby.length, RUBY_TEXT_KEY,
          base1.length, ruby.length]
        ++ base1.map (try_remap_character remap) ++ ruby.map (try_remap_character remap)
        ++ base2.map (try_remap_character remap))
  | _ => Except.error "Malformed ruby text"

/-- The character loop of TextFile.string_to_line_data, producing the
code-unit list before terminator and packing.  Fuel bounds the recursion;
every step consumes at least one character, so string_to_line_data's
fuel of length + 1 always suffices and the 0-fuel arm is unreachable. -/
def s2lLoop (cfg : TextConfig) (remap : Bool) : Nat → PyStr → Except String (List Nat)
  | 0, _ => Except.error "fuel exhausted"
  | _, [] => Except.ok []
  | fuel+1, c :: rest =>
    if c = 91 then
      match pyFind rest 93 with
      | none => Except.error "Unterminated variable text"
      | some e =>
        match parse_variable_values cfg (rest.take e) with
        | Except.error err => Except.error err
        | Except.ok vs =>
          match s2lLoop cfg remap fuel (rest.drop (e + 1)) with
          | Except.error err => Except.error err
          | Except.ok rs => Except.ok (vs ++ rs)
    else if c = 123 then
      match pyFind rest 125 with
      | none => Except.error "Unterminated ruby text"
      | some e =>
        match parse_ruby_values remap (rest.take e) with
        | Except.error err => Except.error err
        | Except.ok vs =>
          match s2lLoop cfg remap fuel (rest.drop (e + 1)) with
          | Except.error err => Except.error err
          | Except.ok rs => Except.ok (vs ++ rs)
    else if c = 92 then
      match rest with
      | [] => Except.error "string index out of range"
      | esc :: rest2 =>
        match parse_escape_values esc with
        | Except.error err => Except.error err
        | Except.ok vs =>
          match s2lLoop cfg remap fuel rest2 with
          | Except.error err => Except.error err
          | Except.ok rs => Except.ok (vs ++ rs)
    else
      match cfg.vars.find? (fun p => codes p.2 == [c]) with
      | some p =>
        match s2lLoop cfg remap fuel rest with
        | Except.error err => Except.error err
        | Except.ok rs => Except.ok (p.1 :: rs)
      | none =>
        match s2lLoop cfg remap fuel rest with
        | Except.error err => Except.error err
        | Except.ok rs => Except.ok (try_remap_character remap c :: rs)

/-- TextFile.string_to_line_data: convert a string into the decrypted byte
form (code units plus terminator, packed little-endian); packing a value
outside u16 range is a struct.error. -/
def string_to_line_data (cfg : TextConfig) (remap : Bool) (line : PyStr) : Except String (List Nat) :=
  match s2lLoop cfg remap (line.length + 1) line with
  | Except.error e => Except.error e
  | Except.ok r =>
    let r := r ++ [TERMINATOR_KEY]
    if r.all (fun v => v < 65536) then Except.ok (packU16 r)
    else Except.error "ushort format requires number in range"

/-- A single unmapped, non-special unit decodes to the (optionally
remapped) character with the unit's code point. -/
theorem parse_single_unmapped (r : Bool) (v : Nat) (hv : v < 65536)
    (h0 : v ≠ 0) (hA : v ≠ 0x0A) (h10 : v ≠ 0x10)
    (h91 : v ≠ 91) (h92 : v ≠ 92) (h123 : v ≠ 123)
    (hnf : lgpeVars.find? (fun p => p.1 == v) = none) :
    parse_line_string lgpeConfig r (packU16 [v]) = some [try_remap_character r v] := by
  have hpack : packU16 [v] = [v % 256, v / 256 % 256] := rfl
  have hread : readU16 [v % 256, v / 256 % 256] 0 = some v := by
    have h : readU16 [v % 256, v / 256 % 256] 0 = some (v % 256 + 256 * (v / 256 % 256)) := rfl
    rw [h]
    congr 1
    omega
  have hgvs : get_variable_string lgpeConfig.vars v = hex4 v := by
    show get_variable_string lgpeVars v = hex4 v
    unfold get_variable_string
    rw [hnf]
  rw [hpack]
  show parseLoop lgpeConfig r 8 [v % 256, v / 256 % 256] 0 = some [try_remap_character r v]
  rw [parseLoop]
  simp only [List.length_cons, List.length_nil, hread]
  rw [if_pos (by omega : 0 < 0 + 1 + 1)]
  simp only [TERMINATOR_KEY, VARIABLE_KEY, if_neg h0, if_neg h10, if_neg hA,
    if_neg h92, if_neg h91, if_neg h123, hgvs, ne_eq, not_true_eq_false, if_neg,
    ite_false, not_false_eq_true, Nat.zero_add]
  have hrec : parseLoop lgpeConfig r 7 [v % 256, v / 256 % 256] 2 = some [] := by
    rw [parseLoop]
    simp
  rw [hrec]
  simp

/-- C4 counterexample: the plaintext unit 0xFF00 is in the LGPE table with
the five-character name COLOR, and decoding it emits the name, not the
character with code point 0xFF00. -/
theorem c4_counterexample :
    parse_line_string lgpeConfig false (packU16 [0xFF00]) = some (codes "COLOR") ∧
    codes "COLOR" ≠ [0xFF00] := ⟨rfl, by decide⟩

/-- C4 amended: a plaintext unit outside any variable token that is present
in the active game variable table decodes to its mapped name regardless of
the name's length (single-character names such as ₽ being the literal
special case); a unit absent from the table decodes to the character whose
code point equals the (optionally remapped) unit value. -/
theorem c4_decode_literal_rule :
    (∀ (r : Bool), ∀ p ∈ lgpeVars,
      parse_line_string lgpeConfig r (packU16 [p.1]) = some (codes p.2)) ∧
    (∀ (r : Bool) (v : Nat), v < 65536 →
      v ≠ 0 → v ≠ 0x0A → v ≠ 0x10 → v ≠ 91 → v ≠ 92 → v ≠ 123 →
      lgpeVars.find? (fun p => p.1 == v) = none →
      parse_line_string lgpeConfig r (packU16 [v]) = some [try_remap_character r v]) :=
  ⟨by decide, fun r v hv h0 hA h10 h91 h92 h123 hnf =>
    parse_single_unmapped r v hv h0 hA h10 h91 h92 h123 hnf⟩

/-- Witness for C4 at the table entry (0xE300, ₽) and at the unmapped unit
0x2026. -/
theorem c4_decode_literal_rule_witness :
    parse_line_string lgpeConfig false (packU16 [0xE300]) = some (codes "₽") ∧
    parse_line_string lgpeConfig false (packU16 [0x2026]) =
      some [try_remap_character false 0x2026] :=
  ⟨c4_decode_literal_rule.1 false (0xE300, "₽") (by decide),
   c4_decode_literal_rule.2 false 0x2026 (by decide) (by decide) (by decide)
     (by decide) (by decide) (by decide) (by decide) (by decide)⟩

/-- C5 counterexample: with remapping enabled, encoding the one-character
string U+202F emits the code unit 0x202F itself, not 0xE07F — the encoder
does not apply the remap table in reverse. -/
theorem c5_counterexample :
    string_to_line_data lgpeConfig true [0x202F] = Except.ok (packU16 [0x202F, TERMINATOR_KEY]) ∧
    packU16 [0x202F, TERMINATOR_KEY] ≠ packU16 [0xE07F, TERMINATOR_KEY] := ⟨rfl, by decide⟩

/-- C5 amended: when remapping is enabled both decode and encode apply the
same forward table (private-use unit to Unicode equivalent): decoding a
private-use unit yields the Unicode character, and encoding the
private-use character also emits the Unicode value (so encoding U+202F
emits 0x202F, never 0xE07F); when remapping is disabled the remap step is
the identity in both directions. -/
theorem c5_remap_forward_both_directions :
    (∀ v : Nat, try_remap_character false v = v) ∧
    (∀ p ∈ REMAP_CHAR_MAP,
      parse_line_string lgpeConfig true (packU16 [p.1]) = some [p.2] ∧
      string_to_line_data lgpeConfig true [p.1] = Except.ok (packU16 [p.2, TERMINATOR_KEY])) ∧
    string_to_line_data lgpeConfig true [0x202F] = Except.ok (packU16 [0x202F, TERMINATOR_KEY]) :=
  ⟨fun _ => rfl, by intro p hp; fin_cases hp <;> exact ⟨rfl, rfl⟩, rfl⟩

/-- Witness for C5 at the remap entry (0xE07F, 0x202F). -/
theorem c5_remap_forward_both_directions_witness :
    parse_line_string lgpeConfig true (packU16 [0xE07F]) = some [0x202F] ∧
    string_to_line_data lgpeConfig true [0xE07F] = Except.ok (packU16 [0x202F, TERMINATOR_KEY]) :=
  c5_remap_forward_both_directions.2.1 (0xE07F, 0x202F) (by decide)

/-- The code-unit list emitted for an accepted ruby token. -/
def rubyUnits (remap : Bool) (base1 ruby base2 : PyStr) : List Nat :=
  [VARIABLE_KEY, 3 + base1.length + ruby.length, RUBY_TEXT_KEY,
      base1.length, ruby.length]
    ++ base1.map (try_remap_character remap) ++ ruby.map (try_remap_character remap)
    ++ base2.map (try_remap_character remap)

/-- C7: encoding the text between curly brackets fails iff the
pipe-separated part count is not 2 or 3, or a three-part ruby has bases of
different character lengths; every accepted input emits the marker, total
length 3 + base_len + ruby_len, the ruby identifier, the two length
fields, and the three character runs, base2 defaulting to base1 with two
parts.  Encoding ab|xy|abc (the body of the bracketed token) fails with
the base length mismatch error. -/
theorem c7_ruby_encode :
    (∀ (remap : Bool) (text base1 ruby : PyStr), pySplit 124 text = [base1, ruby] →
      parse_ruby_values remap text = Except.ok (rubyUnits remap base1 ruby base1)) ∧
    (∀ (remap : Bool) (text base1 ruby base2 : PyStr), pySplit 124 text = [base1, ruby, base2] →
      (base1.length = base2.length →
        parse_ruby_values remap text = Except.ok (rubyUnits remap base1 ruby base2)) ∧
      (base1.length ≠ base2.length →
        parse_ruby_values remap text = Except.error "Ruby base texts mismatch")) ∧
    (∀ (remap : Bool) (text : PyStr), (pySplit 124 text).length ≠ 2 →
      (pySplit 124 text).length ≠ 3 →
      parse_ruby_values remap text = Except.error "Malformed ruby text") ∧
    parse_ruby_values false (codes "ab|xy|abc") = Except.error "Ruby base texts mismatch" := by
  refine ⟨?_, ?_, ?_, rfl⟩
  · intro remap text base1 ruby h
    simp [parse_ruby_values, h, rubyUnits]
  · intro remap text base1 ruby base2 h
    refine ⟨fun heq => ?_, fun hne => ?_⟩
    · simp [parse_ruby_values, h, heq, rubyUnits]
    · simp [parse_ruby_values, h, hne]
  · intro remap text h2 h3
    rcases hs : pySplit 124 text with _ | ⟨a, _ | ⟨b, _ | ⟨c, _ | d⟩⟩⟩ <;>
      simp_all [parse_ruby_values, hs]

/-- Witness for C7 at the two-part body ab|xy and the three-part body
ab|xy|cd. -/
theorem c7_ruby_encode_witness :
    parse_ruby_values false (codes "ab|xy") =
      Except.ok (rubyUnits false (codes "ab") (codes "xy") (codes "ab")) ∧
    parse_ruby_values false (codes "ab|xy|cd") =
      Except.ok (rubyUnits false (codes "ab") (codes "xy") (codes "cd")) :=
  ⟨c7_ruby_encode.1 false (codes "ab|xy") (codes "ab") (codes "xy") (by decide),
   (c7_ruby_encode.2.1 false (codes "ab|xy|cd") (codes "ab") (codes "xy")
      (codes "cd") (by decide)).1 (by decide)⟩

/-- TextLine from text_config.py: one line entry (offset i32 in bytes from
the section start, length in code units, flags). -/
structure TextLine where
  offset : Int
  length : Nat
  flags : Nat
deriving Repr, DecidableEq

/-- Clamp one Python slice bound to an index of a sequence of the given
length (negative values count from the end). -/
def pyIdx (len : Nat) (i : Int) : Nat :=
  if i < 0 then ((len : Int) + i).toNat else min i.toNat len

/-- Python slice d[s:e]. -/
def pySlice (d : List Nat) (s e : Int) : List Nat :=
  (d.take (pyIdx d.length e)).drop (pyIdx d.length s)

/-- TextFile.__init__ validation: the reads and checks performed when a
container is constructed from bytes, in source order.  Failed struct reads
and failed checks are the ValueError / struct.error exceptions. -/
def mkTextFile (data : List Nat) : Except String Unit :=
  match readU32 data 8 with
  | none => Except.error "struct error"
  | some ikey =>
    if ikey ≠ 0 then Except.error "Invalid initial key! Expected 0."
    else
      match readU32 data 12, readU32 data 4 with
      | some sdo, some total =>
        match readU16 data 0 with
        | none => Except.error "struct error"
        | some sections =>
          if sdo + total ≠ data.length ∨ sections ≠ 1 then
            Except.error "Invalid text file format."
          else
            match readU32 data sdo with
            | none => Except.error "struct error"
            | some slen =>
              if slen ≠ total then
                Except.error "Section length and total length mismatch."
              else Except.ok ()
      | _, _ => Except.error "struct error"

/-- One line entry read with struct.unpack_from of i32, u16, u16. -/
def readEntry (data : List Nat) (pos : Nat) : Option TextLine :=
  match readI32 data pos, readU16 data (pos+4), readU16 data (pos+6) with
  | some off, some len, some fl => some ⟨off, len, fl⟩
  | _, _, _ => none

/-- The line_offsets property loop: entries of 8 bytes each from `pos`. -/
def readEntries (data : List Nat) : Nat → Nat → Option (List TextLine)
  | _, 0 => some []
  | pos, n+1 =>
    match readEntry data pos with
    | none => none
    | some e =>
      match readEntries data (pos+8) (n) with
      | none => none
      | some r => some (e :: r)

/-- TextFile.get_line_key: the additive per-line initial key. -/
def get_line_key (index : Nat) : Nat := (BASE_KEY + index * ADVANCE_KEY) &&& 0xFFFF

/-- TextFile.get_encrypted_line body for a given entry: the ciphertext
slice of the data (Python slicing clamps out-of-range bounds). -/
def get_encrypted_line (data : List Nat) (sdo : Nat) (e : TextLine) : List Nat :=
  pySlice data ((sdo : Int) + e.offset) ((sdo : Int) + e.offset + ((e.length * 2 : Nat) : Int))

/-- The loop of the TextFile.lines property: slice, decrypt and parse each
entry, the key advancing additively after each line. -/
def linesLoop (cfg : TextConfig) (remap : Bool) (data : List Nat) (sdo : Nat) :
    Nat → List TextLine → Except String (List PyStr)
  | _, [] => Except.ok []
  | key, e :: rest =>
    match encrypt_line_data (pySlice data ((sdo : Int) + e.offset)
      ((sdo : Int) + e.offset + ((e.length * 2 : Nat) : Int))) key with
    | none => Except.error "struct error"
    | some decrypted =>
      match parse_line_string cfg remap decrypted with
      | none => Except.error "struct error"
      | some s =>
        match linesLoop cfg remap data sdo ((key + ADVANCE_KEY) &&& 0xFFFF) rest with
        | Except.error err => Except.error err
        | Except.ok r => Except.ok (s :: r)

/-- The TextFile.lines property: read line_count, section_data_offset and
the entry table, then decode every line starting from BASE_KEY. -/
def textFileLines (cfg : TextConfig) (remap : Bool) (data : List Nat) :
    Except String (List PyStr) :=
  match readU16 data 2, readU32 data 12 with
  | some count, some sdo =>
    match readEntries data (sdo + 4) count with
    | none => Except.error "struct error"
    | some entries => linesLoop cfg remap data sdo BASE_KEY entries
  | _, _ => Except.error "struct error"

/-- TextFile.get_line: decode one line standalone with get_line_key. -/
def get_line (cfg : TextConfig) (remap : Bool) (data : List Nat) (index : Nat) :
    Except String PyStr :=
  match readU16 data 2, readU32 data 12 with
  | some count, some sdo =>
    match readEntries data (sdo + 4) count with
    | none => Except.error "struct error"
    | some entries =>
      match entries[index]? with
      | none => Except.error "list index out of range"
      | some e =>
        match encrypt_line_data (get_encrypted_line data sdo e) (get_line_key index) with
        | none => Except.error "struct error"
        | some dec =>
          match parse_line_string cfg remap dec with
          | none => Except.error "struct error"
          | some s => Except.ok s
  | _, _ => Except.error "struct error"

/-- Construct a container from bytes and decode all lines, as
TextFile(data).lines does. -/
def decodeDat (cfg : TextConfig) (remap : Bool) (data : List Nat) :
    Except String (List PyStr) :=
  match mkTextFile data with
  | Except.error e => Except.error e
  | Except.ok _ => textFileLines cfg remap data

/-- utilities.get_strings: every exception from construction or decoding
(including the unsupported default game raised when no config is given)
is caught and turned into None. -/
def get_strings (data : List Nat) (config : Option TextConfig) (remap : Bool) :
    Option (List PyStr) :=
  let res : Except String (List PyStr) :=
    match config with
    | none => Except.error "Game version default is not supported."
    | some cfg => decodeDat cfg remap data
  match res with
  | Except.error _ => none
  | Except.ok l => some l

theorem and_mask_eq_mod (x : Nat) : x &&& 0xFFFF = x % 65536 := by
  have h := Nat.and_pow_two_sub_one_eq_mod x 16
  norm_num at h
  exact h

/-- A concrete container whose header checks pass but whose single line
entry (offset 12, length 4 code units) points past the end of the section
(12 + 4 * 2 = 20 > section_length = 12): the ciphertext slice clamps to
the empty buffer. -/
def c6buf : List Nat :=
  [0x01, 0x00, 0x01, 0x00, 0x0C, 0, 0, 0, 0, 0, 0, 0, 0x10, 0, 0, 0,
   0x0C, 0, 0, 0, 12, 0, 0, 0, 4, 0, 0, 0]

/-- C6 counterexample: construction accepts `c6buf` although its line
entry exceeds the section bounds, and decoding produces the line list
containing one empty string instead of failing. -/
theorem c6_counterexample :
    mkTextFile c6buf = Except.ok () ∧
    readEntries c6buf (16 + 4) 1 = some [⟨12, 4, 0⟩] ∧
    12 + 4 * 2 > 12 ∧
    decodeDat lgpeConfig false c6buf = Except.ok [[]] ∧
    get_strings c6buf (some lgpeConfig) false = some [[]] :=
  ⟨rfl, rfl, by decide, rfl, rfl⟩

/-- C6 amended: construction from bytes checks exactly the four header
conditions — text_sections = 1, initial_key = 0, section_length =
total_length, section_data_offset + total_length = file length (plus the
implicit requirement that each of those reads is in bounds) — and nothing
else; in particular no line entry bound is checked (see the
counterexample, where an entry past the section end decodes to a line). -/
theorem c6_header_validation (data : List Nat) :
    mkTextFile data = Except.ok () ↔
    (readU32 data 8 = some 0 ∧ readU16 data 0 = some 1 ∧
     ∃ sdo total, readU32 data 12 = some sdo ∧ readU32 data 4 = some total ∧
       sdo + total = data.length ∧ readU32 data sdo = some total) := by
  unfold mkTextFile
  rcases h8 : readU32 data 8 with _ | ikey
  · simp [h8]
  by_cases hk : ikey = 0
  case neg => simp [h8, hk]
  subst hk
  rcases h12 : readU32 data 12 with _ | sdo
  · simp [h8, h12]
  rcases h4 : readU32 data 4 with _ | total
  · simp [h8, h12, h4]
  rcases h0 : readU16 data 0 with _ | sections
  · simp [h8, h12, h4, h0]
  by_cases hc : sdo + total ≠ data.length ∨ sections ≠ 1
  · simp only [h8, h12, h4, h0, if_neg (by omega : ¬(0 : Nat) ≠ 0), if_pos hc]
    constructor
    · intro h; exact Except.noConfusion h
    · rintro ⟨-, hsec, sdo2, total2, hs2, ht2, hlen, -⟩
      injection hsec with hsec
      injection hs2 with hs2
      injection ht2 with ht2
      subst hs2; subst ht2
      rcases hc with hc | hc
      · exact absurd hlen hc
      · exact absurd hsec hc
  · push_neg at hc
    obtain ⟨hlen, hsec⟩ := hc
    subst hsec
    rcases hsl : readU32 data sdo with _ | slen
    · simp [h8, h12, h4, h0, hsl, hlen]
    by_cases he : slen = total
    · subst he
      simp [h8, h12, h4, h0, hsl, hlen]
    · simp only [h8, h12, h4, h0, if_neg (by omega : ¬(0 : Nat) ≠ 0),
        if_neg (show ¬(sdo + total ≠ data.length ∨ (1 : Nat) ≠ 1) by omega),
        hsl, if_pos he]
      constructor
      · intro h; exact Except.noConfusion h
      · rintro ⟨-, -, sdo2, total2, hs2, ht2, -, hsl2⟩
        injection hs2 with hs2
        injection ht2 with ht2
        subst hs2; subst ht2
        rw [hsl] at hsl2
        injection hsl2 with hsl2
        exact absurd hsl2 he

/-- C10: get_strings never propagates an exception — with no configuration
the unsupported default game makes it return None, every construction or
decode error makes it return None, and every accepted buffer yields the
decoded line list. -/
theorem c10_get_strings_total :
    (∀ (data : List Nat) (remap : Bool), get_strings data none remap = none) ∧
    (∀ (data : List Nat) (cfg : TextConfig) (remap : Bool) (err : String),
      decodeDat cfg remap data = Except.error err →
      get_strings data (some cfg) remap = none) ∧
    (∀ (data : List Nat) (cfg : TextConfig) (remap : Bool) (l : List PyStr),
      decodeDat cfg remap data = Except.ok l →
      get_strings data (some cfg) remap = some l) := by
  refine ⟨fun data remap => rfl, fun data cfg remap err h => ?_, fun data cfg remap l h => ?_⟩
  · simp [get_strings, h]
  · simp [get_strings, h]

/-- Witness for C10: the empty buffer fails construction and yields None;
the canonical empty container decodes to the empty line list. -/
theorem c10_get_strings_total_witness :
    get_strings ([] : List Nat) (some lgpeConfig) false = none ∧
    get_strings EMPTY_TEXT_FILE (some lgpeConfig) false = some [] :=
  ⟨c10_get_strings_total.2.1 [] lgpeConfig false "struct error" rfl,
   c10_get_strings_total.2.2 EMPTY_TEXT_FILE lgpeConfig false [] rfl⟩

/-- In the bulk lines loop started at 16-bit key `k`, the i-th entry is
decrypted with key (k + i * ADVANCE_KEY) mod 2^16 and contributes the i-th
decoded string. -/
theorem linesLoop_index (cfg : TextConfig) (remap : Bool) (data : List Nat) (sdo : Nat) :
    ∀ (entries : List TextLine) (k : Nat) (L : List PyStr), k < 65536 →
    linesLoop cfg remap data sdo k entries = Except.ok L →
    L.length = entries.length ∧
    ∀ i e, entries[i]? = some e →
      ∃ dec, encrypt_line_data (get_encrypted_line data sdo e)
          ((k + i * ADVANCE_KEY) &&& 0xFFFF) = some dec ∧
        ∃ s, parse_line_string cfg remap dec = some s ∧ L[i]? = some s
  | [], k, L, hk, h => by
    simp only [linesLoop] at h
    injection h with h
    subst h
    exact ⟨rfl, fun i e he => by simp at he⟩
  | e :: rest, k, L, hk, h => by
    simp only [linesLoop] at h
    rcases henc : encrypt_line_data (pySlice data ((sdo : Int) + e.offset)
        ((sdo : Int) + e.offset + ((e.length * 2 : Nat) : Int))) k with _ | dec
    · rw [henc] at h; exact Except.noConfusion h
    rw [henc] at h
    dsimp only at h
    rcases hpar : parse_line_string cfg remap dec with _ | s
    · rw [hpar] at h; exact Except.noConfusion h
    rw [hpar] at h
    dsimp only at h
    rcases hrec : linesLoop cfg remap data sdo ((k + ADVANCE_KEY) &&& 0xFFFF) rest with err | r
    · rw [hrec] at h; exact Except.noConfusion h
    rw [hrec] at h
    injection h with h
    subst h
    have hk2 : (k + ADVANCE_KEY) &&& 0xFFFF < 65536 := by
      rw [and_mask_eq_mod]; omega
    have IH := linesLoop_index cfg remap data sdo rest ((k + ADVANCE_KEY) &&& 0xFFFF) r hk2 hrec
    refine ⟨by simp [IH.1], fun i e2 he2 => ?_⟩
    match i with
    | 0 =>
      simp only [List.getElem?_cons_zero] at he2
      injection he2 with he2
      subst he2
      refine ⟨dec, ?_, s, hpar, by simp⟩
      rw [show (k + 0 * ADVANCE_KEY) = k by ring, and_mask_eq_mod,
        Nat.mod_eq_of_lt hk]
      exact henc
    | n + 1 =>
      simp only [List.getElem?_cons_succ] at he2
      obtain ⟨dec2, hdec2, s2, hs2, hr2⟩ := IH.2 n e2 he2
      refine ⟨dec2, ?_, s2, hs2, by simpa using hr2⟩
      rw [and_mask_eq_mod] at hdec2 ⊢
      rw [and_mask_eq_mod] at hdec2
      rw [show (k + (n + 1) * ADVANCE_KEY) = (k + ADVANCE_KEY) + n * ADVANCE_KEY by ring]
      rw [Nat.mod_add_mod] at hdec2
      exact hdec2

/-- C3: decoding line i standalone with get_line (initial key
(BASE_KEY + i * ADVANCE_KEY) mod 2^16 on the i-th ciphertext run) yields
the same string as decoding the full container via the bulk lines
accessor and selecting index i. -/
theorem c3_get_line_agrees_bulk (cfg : TextConfig) (remap : Bool) (data : List Nat)
    (L : List PyStr) (h : textFileLines cfg remap data = Except.ok L)
    (i : Nat) (hi : i < L.length) :
    get_line cfg remap data i = Except.ok (L.get ⟨i, hi⟩) := by
  unfold textFileLines at h
  rcases h2 : readU16 data 2 with _ | count
  · rw [h2] at h; exact Except.noConfusion h
  rcases h12 : readU32 data 12 with _ | sdo
  · rw [h2, h12] at h; exact Except.noConfusion h
  rw [h2, h12] at h
  dsimp only at h
  rcases hent : readEntries data (sdo + 4) count with _ | entries
  · rw [hent] at h; exact Except.noConfusion h
  rw [hent] at h
  dsimp only at h
  have IH := linesLoop_index cfg remap data sdo entries BASE_KEY L (by decide) h
  have hie : i < entries.length := by rw [← IH.1]; exact hi
  have he : entries[i]? = some (entries.get ⟨i, hie⟩) := by
    simp [List.getElem?_eq_getElem hie]
  obtain ⟨dec, hdec, s, hs, hLi⟩ := IH.2 i (entries.get ⟨i, hie⟩) he
  unfold get_line
  rw [h2, h12]
  dsimp only
  rw [hent]
  dsimp only
  rw [he]
  dsimp only
  rw [show get_line_key i = (BASE_KEY + i * ADVANCE_KEY) &&& 0xFFFF from rfl]
  rw [hdec]
  dsimp only
  rw [hs]
  dsimp only
  have : L[i]? = some (L.get ⟨i, hi⟩) := by simp [List.getElem?_eq_getElem hi]
  rw [this] at hLi
  injection hLi with hLi
  rw [hLi]

/-- A concrete valid one-line container holding the string Hi with flags
7: header, section length 20, one entry (offset 12, 3 code units), the
ciphertext run for key 0x7C89, and two trailing padding bytes. -/
def c3buf : List Nat :=
  [0x01, 0x00, 0x01, 0x00, 0x14, 0, 0, 0, 0, 0, 0, 0, 0x10, 0, 0, 0,
   0x14, 0, 0, 0, 12, 0, 0, 0, 3, 0, 7, 0, 0xC1, 0x7C, 0x22, 0xE4, 0x5F, 0x22, 0, 0]

/-- Witness for C3 on the concrete container c3buf at index 0. -/
theorem c3_get_line_agrees_bulk_witness :
    get_line lgpeConfig false c3buf 0 =
      Except.ok ([codes "Hi"].get ⟨0, by decide⟩) :=
  c3_get_line_agrees_bulk lgpeConfig false c3buf [codes "Hi"] rfl 0 (by decide)

/-- The per-line text preprocessing of convert_lines_to_data: strip, then
substitute the line cross-reference marker for empty text when
set_empty_text is on (None lines do not occur on the modelled paths). -/
def convertText (setEmpty : Bool) (i : Nat) (text : PyStr) : PyStr :=
  let t := pyStrip text
  if t.isEmpty ∧ setEmpty then codes "[~ " ++ decRepr i ++ codes "]" else t

/-- The loop of TextFile.convert_lines_to_data: encode and encrypt each
line, the key advancing additively. -/
def convertLoop (cfg : TextConfig) (remap : Bool) (setEmpty : Bool) :
    Nat → Nat → List PyStr → Except String (List (List Nat))
  | _, _, [] => Except.ok []
  | i, key, text :: rest =>
    match string_to_line_data cfg remap (convertText setEmpty i text) with
    | Except.error e => Except.error e
    | Except.ok decrypted =>
      match encrypt_line_data decrypted key with
      | none => Except.error "struct error"
      | some encrypted =>
        match convertLoop cfg remap setEmpty (i+1) ((key + ADVANCE_KEY) &&& 0xFFFF) rest with
        | Except.error e => Except.error e
        | Except.ok r => Except.ok (encrypted :: r)

/-- TextFile.convert_lines_to_data. -/
def convert_lines_to_data (cfg : TextConfig) (remap : Bool) (setEmpty : Bool)
    (lines : List PyStr) : Except String (List (List Nat)) :=
  convertLoop cfg remap setEmpty 0 BASE_KEY lines

/-- The offset/size computation of the line_data setter: each entry takes
the current cursor as offset and half the run's byte length as length
(flags 0); the cursor advances by the run and two padding bytes exactly
when it lands on 2 mod 4.  Returns the entries and the final bytes_used. -/
def entriesLoop : List (List Nat) → Nat → List TextLine × Nat
  | [], used => ([], used)
  | v :: rest, used =>
    let used2 := used + v.length
    let used3 := if used2 % 4 = 2 then used2 + 2 else used2
    let p := entriesLoop rest used3
    (⟨(used : Int), v.length / 2, 0⟩ :: p.1, p.2)

/-- The line_offsets setter loop: pack each entry as i32 offset, u16
length, u16 flags at 8-byte stride (offsets produced by the encoder are
nonnegative so the i32 is written from the natural value). -/
def writeEntriesAt : List Nat → Nat → List TextLine → List Nat
  | d, _, [] => d
  | d, pos, e :: rest =>
    writeEntriesAt
      (writeU16 (writeU16 (writeU32 d pos e.offset.toNat) (pos+4) e.length) (pos+6) e.flags)
      (pos+8) rest

/-- The ciphertext copy loop of the line_data setter. -/
def copyRuns : List Nat → Nat → List TextLine → List (List Nat) → List Nat
  | d, _, _, [] => d
  | d, _, [], _ :: _ => d
  | d, sdo, e :: es, v :: vs => copyRuns (writeBytes d (sdo + e.offset.toNat) v) sdo es vs

/-- The line_data setter: recompute entries and bytes_used, reallocate the
buffer past the section offset, write section_length, total_length,
line_count, the entry table, and the runs, in source order. -/
def line_data_set (origData : List Nat) (sdo : Nat) (runs : List (List Nat)) : List Nat :=
  let p := entriesLoop runs (4 + 8 * runs.length)
  let d0 := origData.take sdo ++ List.replicate p.2 0
  let d1 := writeU32 d0 sdo p.2
  let d2 := writeU32 d1 4 p.2
  let d3 := writeU16 d2 2 runs.length
  let d4 := writeEntriesAt d3 (sdo + 4) p.1
  copyRuns d4 sdo p.1 runs

/-- Entries with their flags replaced by the given flag list (the flags
setter builds exactly one entry per supplied flag). -/
def flagEntries (entries : List TextLine) (flags : List Nat) : List TextLine :=
  List.zipWith (fun e f => TextLine.mk e.offset e.length f) entries flags

/-- TextFile.from_lines: construct from the empty container (the default
data validates), assign lines (convert and lay out), then assign flags
(rewrite the entry table with the supplied flags; more flags than lines is
an IndexError). -/
def from_lines (cfg : TextConfig) (remap : Bool) (lines : List PyStr)
    (flags : List Nat) : Except String (List Nat) :=
  match convert_lines_to_data cfg remap false lines with
  | Except.error e => Except.error e
  | Except.ok runs =>
    let p := entriesLoop runs (4 + 8 * runs.length)
    if p.1.length < flags.length then Except.error "list index out of range"
    else Except.ok (writeEntriesAt (line_data_set EMPTY_TEXT_FILE 16 runs) (16 + 4)
      (flagEntries p.1 flags))

/-- A concrete valid one-line container whose single line decodes to the
two-character string with a leading space (units 0x20 0x41): header,
section length 20, one entry (offset 12, 3 code units, flags 0), the
ciphertext run for key 0x7C89, two trailing padding bytes. -/
def c1buf : List Nat :=
  [1, 0, 1, 0, 20, 0, 0, 0, 0, 0, 0, 0, 16, 0, 0, 0, 20, 0, 0, 0,
   12, 0, 0, 0, 3, 0, 0, 0, 0xA9, 0x7C, 0x0A, 0xE4, 0x5F, 0x22, 0, 0]

/-- C1 counterexample: the container c1buf decodes to a single line whose
text begins with a space; encoding that line list back (with the
container's flags) and decoding again yields the stripped line, because
convert_lines_to_data strips each line — the round trip changes the line. -/
theorem c1_counterexample :
    decodeDat lgpeConfig false c1buf = Except.ok [codes " A"] ∧
    (from_lines lgpeConfig false [codes " A"] [0]).bind
      (fun b2 => decodeDat lgpeConfig false b2) = Except.ok [codes "A"] ∧
    codes " A" ≠ codes "A" :=
  ⟨rfl, rfl, by decide⟩

theorem writeU16_at (a : List Nat) (x y : Nat) (t : List Nat) (v : Nat) :
    writeU16 (a ++ x :: y :: t) a.length v = a ++ v % 256 :: v / 256 % 256 :: t := by
  unfold writeU16
  rw [List.set_append_right _ _ (Nat.le_refl _), Nat.sub_self]
  show ((a ++ v % 256 :: y :: t).set (a.length + 1)) (v / 256 % 256) = _
  rw [List.set_append_right _ _ (by omega), Nat.add_sub_cancel_left]
  rfl

theorem writeU32_at (a : List Nat) (x0 x1 x2 x3 : Nat) (t : List Nat) (v : Nat) :
    writeU32 (a ++ x0 :: x1 :: x2 :: x3 :: t) a.length v = a ++ u32le v ++ t := by
  unfold writeU32
  rw [writeU16_at]
  have h : a ++ v % 65536 % 256 :: v % 65536 / 256 % 256 :: x2 :: x3 :: t =
      (a ++ [v % 65536 % 256, v % 65536 / 256 % 256]) ++ x2 :: x3 :: t := by
    simp
  rw [h]
  have h2 : a.length + 2 = (a ++ [v % 65536 % 256, v % 65536 / 256 % 256]).length := by
    simp
  rw [h2, writeU16_at]
  have e0 : v % 65536 % 256 = v % 256 := by omega
  have e1 : v % 65536 / 256 % 256 = v / 256 % 256 := by omega
  have e2 : v / 65536 % 65536 % 256 = v / 65536 % 256 := by omega
  have e3 : v / 65536 % 65536 / 256 % 256 = v / 16777216 % 256 := by omega
  simp [u32le, e0, e1, e2, e3]

theorem writeBytes_at : ∀ (r a t : List Nat), r.length ≤ t.length →
    writeBytes (a ++ t) a.length r = a ++ r ++ t.drop r.length
  | [], a, t, _ => by simp [writeBytes]
  | b :: r, a, t, h => by
    match t with
    | [] => simp at h
    | c :: t =>
      show writeBytes ((a ++ c :: t).set a.length b) (a.length + 1) (r) = _
      rw [List.set_append_right _ _ (Nat.le_refl _), Nat.sub_self]
      have h1 : a ++ (c :: t).set 0 b = (a ++ [b]) ++ t := by simp
      have h2 : a.length + 1 = (a ++ [b]).length := by simp
      rw [h1, h2, writeBytes_at r (a ++ [b]) t (by simpa using h)]
      simp

/-- The 8 bytes of one packed line entry. -/
def entryBytes (e : TextLine) : List Nat :=
  u32le e.offset.toNat ++ u16le e.length ++ u16le e.flags

/-- The packed entry table. -/
def entriesBytes (es : List TextLine) : List Nat := es.flatMap entryBytes

/-- The ciphertext body as laid out by the encoder: the runs in order with
two zero bytes after any run that leaves the cursor at 2 mod 4. -/
def bodyBytes : List (List Nat) → Nat → List Nat
  | [], _ => []
  | v :: rest, used =>
    if (used + v.length) % 4 = 2 then v ++ 0 :: 0 :: bodyBytes rest (used + v.length + 2)
    else v ++ bodyBytes rest (used + v.length)

theorem entriesBytes_length : ∀ es : List TextLine, (entriesBytes es).length = 8 * es.length
  | [] => rfl
  | e :: es => by
    simp [entriesBytes, entryBytes, u32le, u16le] at *
    have := entriesBytes_length es
    simp [entriesBytes] at this
    omega

theorem entriesLoop_le : ∀ (runs : List (List Nat)) (used : Nat),
    used ≤ (entriesLoop runs used).2
  | [], _ => Nat.le_refl _
  | v :: rest, used => by
    simp only [entriesLoop]
    split
    · have h := entriesLoop_le rest (used + v.length + 2); omega
    · have h := entriesLoop_le rest (used + v.length); omega

theorem entriesLoop_fst_length : ∀ (runs : List (List Nat)) (used : Nat),
    (entriesLoop runs used).1.length = runs.length
  | [], _ => rfl
  | v :: rest, used => by
    simp only [entriesLoop, List.length_cons]
    rw [entriesLoop_fst_length rest]

theorem bodyBytes_length : ∀ (runs : List (List Nat)) (used : Nat),
    used + (bodyBytes runs used).length = (entriesLoop runs used).2
  | [], _ => by simp [bodyBytes, entriesLoop]
  | v :: rest, used => by
    simp only [bodyBytes, entriesLoop]
    by_cases h : (used + v.length) % 4 = 2
    · rw [if_pos h, if_pos h]
      have := bodyBytes_length rest (used + v.length + 2)
      simp only [List.length_append, List.length_cons]
      omega
    · rw [if_neg h, if_neg h]
      have := bodyBytes_length rest (used + v.length)
      simp only [List.length_append]
      omega

theorem writeU16_pos (a : List Nat) (i : Nat) (h : a.length = i) (x y : Nat)
    (t : List Nat) (v : Nat) :
    writeU16 (a ++ x :: y :: t) i v = a ++ v % 256 :: v / 256 % 256 :: t := by
  subst h; exact writeU16_at a x y t v

theorem writeU32_pos (a : List Nat) (i : Nat) (h : a.length = i) (x0 x1 x2 x3 : Nat)
    (t : List Nat) (v : Nat) :
    writeU32 (a ++ x0 :: x1 :: x2 :: x3 :: t) i v = a ++ u32le v ++ t := by
  subst h; exact writeU32_at a x0 x1 x2 x3 t v

theorem writeBytes_pos (r a : List Nat) (i : Nat) (h : a.length = i) (t : List Nat)
    (hle : r.length ≤ t.length) :
    writeBytes (a ++ t) i r = a ++ r ++ t.drop r.length := by
  subst h; exact writeBytes_at r a t hle

theorem writeEntriesAt_zeros : ∀ (es : List TextLine) (a : List Nat) (i m : Nat),
    a.length = i → 8 * es.length ≤ m →
    writeEntriesAt (a ++ List.replicate m 0) i es =
      a ++ entriesBytes es ++ List.replicate (m - 8 * es.length) 0
  | [], a, i, m, h, hm => by simp [writeEntriesAt, entriesBytes]
  | e :: es, a, i, m, h, hm => by
    subst h
    obtain ⟨k, rfl⟩ : ∃ k, m = k + 8 := ⟨m - 8, by simp only [List.length_cons] at hm; omega⟩
    rw [show List.replicate (k+8) (0:Nat) =
      0 :: 0 :: 0 :: 0 :: 0 :: 0 :: 0 :: 0 :: List.replicate k 0 from rfl]
    show writeEntriesAt
      (writeU16 (writeU16 (writeU32
        (a ++ 0 :: 0 :: 0 :: 0 :: 0 :: 0 :: 0 :: 0 :: List.replicate k 0)
        a.length e.offset.toNat) (a.length+4) e.length) (a.length+6) e.flags)
      (a.length+8) es = _
    rw [writeU32_pos a a.length rfl]
    rw [writeU16_pos (a ++ u32le e.offset.toNat) (a.length+4) (by simp [u32le])]
    rw [show (a ++ u32le e.offset.toNat) ++ e.length % 256 :: e.length / 256 % 256 ::
        (0 :: 0 :: List.replicate k 0) =
      ((a ++ u32le e.offset.toNat) ++ [e.length % 256, e.length / 256 % 256]) ++
        0 :: 0 :: List.replicate k 0 by simp]
    rw [writeU16_pos _ (a.length+6) (by simp [u32le])]
    rw [show ((a ++ u32le e.offset.toNat) ++ [e.length % 256, e.length / 256 % 256]) ++
        e.flags % 256 :: e.flags / 256 % 256 :: List.replicate k 0 =
      (a ++ entryBytes e) ++ List.replicate k 0 by simp [entryBytes, u16le]]
    rw [writeEntriesAt_zeros es (a ++ entryBytes e) (a.length+8) k
      (by simp [entryBytes, u32le, u16le]) (by simp only [List.length_cons] at hm; omega)]
    have hlen : k + 8 - 8 * (e :: es).length = k - 8 * es.length := by
      simp only [List.length_cons]; omega
    rw [hlen]
    simp [entriesBytes, List.append_assoc]

theorem writeEntriesAt_replace : ∀ (esNew esOld : List TextLine) (a c : List Nat) (i : Nat),
    a.length = i → esOld.length = esNew.length →
    writeEntriesAt (a ++ entriesBytes esOld ++ c) i esNew = a ++ entriesBytes esNew ++ c
  | [], [], a, c, i, h, _ => by simp [writeEntriesAt]
  | e :: es, eo :: esOld, a, c, i, h, hlen => by
    subst h
    have hb : a ++ entriesBytes (eo :: esOld) ++ c =
        a ++ eo.offset.toNat % 256 :: eo.offset.toNat / 256 % 256 ::
          eo.offset.toNat / 65536 % 256 :: eo.offset.toNat / 16777216 % 256 ::
          (eo.length % 256 :: eo.length / 256 % 256 ::
           eo.flags % 256 :: eo.flags / 256 % 256 :: (entriesBytes esOld ++ c)) := by
      simp [entriesBytes, entryBytes, u32le, u16le]
    rw [hb]
    show writeEntriesAt
      (writeU16 (writeU16 (writeU32
        (a ++ eo.offset.toNat % 256 :: eo.offset.toNat / 256 % 256 ::
          eo.offset.toNat / 65536 % 256 :: eo.offset.toNat / 16777216 % 256 ::
          (eo.length % 256 :: eo.length / 256 % 256 ::
           eo.flags % 256 :: eo.flags / 256 % 256 :: (entriesBytes esOld ++ c)))
        a.length e.offset.toNat) (a.length+4) e.length) (a.length+6) e.flags)
      (a.length+8) es = _
    rw [writeU32_pos a a.length rfl]
    rw [writeU16_pos (a ++ u32le e.offset.toNat) (a.length+4) (by simp [u32le])]
    rw [show (a ++ u32le e.offset.toNat) ++ e.length % 256 :: e.length / 256 % 256 ::
        (eo.flags % 256 :: eo.flags / 256 % 256 :: (entriesBytes esOld ++ c)) =
      ((a ++ u32le e.offset.toNat) ++ [e.length % 256, e.length / 256 % 256]) ++
        eo.flags % 256 :: eo.flags / 256 % 256 :: (entriesBytes esOld ++ c) by simp]
    rw [writeU16_pos _ (a.length+6) (by simp [u32le])]
    rw [show ((a ++ u32le e.offset.toNat) ++ [e.length % 256, e.length / 256 % 256]) ++
        e.flags % 256 :: e.flags / 256 % 256 :: (entriesBytes esOld ++ c) =
      (a ++ entryBytes e) ++ entriesBytes esOld ++ c by simp [entryBytes, u16le]]
    rw [writeEntriesAt_replace es esOld (a ++ entryBytes e) c (a.length+8)
      (by simp [entryBytes, u32le, u16le]) (by simpa using hlen)]
    simp [entriesBytes, List.append_assoc]

theorem copyRuns_fill : ∀ (runs : List (List Nat)) (used : Nat) (a : List Nat) (m : Nat),
    a.length = 16 + used →
    (entriesLoop runs used).2 - used ≤ m →
    copyRuns (a ++ List.replicate m 0) 16 (entriesLoop runs used).1 runs =
      a ++ bodyBytes runs used ++ List.replicate (m - ((entriesLoop runs used).2 - used)) 0
  | [], used, a, m, h, hm => by simp [copyRuns, entriesLoop, bodyBytes]
  | v :: rest, used, a, m, h, hm => by
    by_cases hpad : (used + v.length) % 4 = 2
    · simp only [entriesLoop, bodyBytes, if_pos hpad] at hm ⊢
      have hfin := entriesLoop_le rest (used + v.length + 2)
      have hvm : v.length + 2 ≤ m := by omega
      show copyRuns (writeBytes (a ++ List.replicate m 0) (16 + ((used : Int)).toNat) v)
        16 (entriesLoop rest (used + v.length + 2)).1 rest = _
      rw [show 16 + ((used : Int)).toNat = a.length by omega]
      rw [writeBytes_pos v a a.length rfl (List.replicate m 0)
        (by simpa using (by omega : v.length ≤ m))]
      rw [List.drop_replicate]
      obtain ⟨k, hk⟩ : ∃ k, m - v.length = k + 2 := ⟨m - v.length - 2, by omega⟩
      rw [hk]
      rw [show List.replicate (k+2) (0:Nat) = 0 :: 0 :: List.replicate k 0 from rfl]
      rw [show (a ++ v) ++ 0 :: 0 :: List.replicate k 0 =
        ((a ++ v) ++ [0, 0]) ++ List.replicate k 0 by simp]
      rw [copyRuns_fill rest (used + v.length + 2) ((a ++ v) ++ [0, 0]) k
        (by simp; omega) (by omega)]
      have hcount : k - ((entriesLoop rest (used + v.length + 2)).2 - (used + v.length + 2)) =
          m - ((entriesLoop rest (used + v.length + 2)).2 - used) := by omega
      rw [hcount]
      simp [List.append_assoc]
    · simp only [entriesLoop, bodyBytes, if_neg hpad] at hm ⊢
      have hfin := entriesLoop_le rest (used + v.length)
      have hvm : v.length ≤ m := by omega
      show copyRuns (writeBytes (a ++ List.replicate m 0) (16 + ((used : Int)).toNat) v)
        16 (entriesLoop rest (used + v.length)).1 rest = _
      rw [show 16 + ((used : Int)).toNat = a.length by omega]
      rw [writeBytes_pos v a a.length rfl (List.replicate m 0) (by simpa using hvm)]
      rw [List.drop_replicate]
      rw [copyRuns_fill rest (used + v.length) (a ++ v) (m - v.length)
        (by simp; omega) (by omega)]
      have hcount : m - v.length - ((entriesLoop rest (used + v.length)).2 - (used + v.length)) =
          m - ((entriesLoop rest (used + v.length)).2 - used) := by omega
      rw [hcount]
      simp [List.append_assoc]

/-- The buffer produced by the line_data setter on the empty container:
unchanged text_sections and initial key, rewritten line_count and
total_length, section_length mirroring total_length, the packed entry
table, and the aligned ciphertext body. -/
theorem line_data_set_eq (runs : List (List Nat)) :
    line_data_set EMPTY_TEXT_FILE 16 runs =
      [1, 0] ++ u16le runs.length ++ u32le (entriesLoop runs (4 + 8 * runs.length)).2 ++
      [0, 0, 0, 0, 16, 0, 0, 0] ++
      u32le (entriesLoop runs (4 + 8 * runs.length)).2 ++
      entriesBytes (entriesLoop runs (4 + 8 * runs.length)).1 ++
      bodyBytes runs (4 + 8 * runs.length) := by
  have hle := entriesLoop_le runs (4 + 8 * runs.length)
  have hlen := entriesLoop_fst_length runs (4 + 8 * runs.length)
  obtain ⟨es, fin, hp⟩ : ∃ es fin, entriesLoop runs (4 + 8 * runs.length) = (es, fin) :=
    ⟨_, _, rfl⟩
  rw [hp] at hle hlen ⊢
  dsimp only at hle hlen ⊢
  unfold line_data_set
  rw [hp]
  dsimp only
  obtain ⟨k, hk⟩ : ∃ k, fin = 4 + (8 * runs.length + k) := ⟨fin - 4 - 8 * runs.length, by omega⟩
  subst hk
  rw [List.replicate_add]
  rw [show EMPTY_TEXT_FILE.take 16 =
    ([1, 0, 0, 0, 4, 0, 0, 0, 0, 0, 0, 0, 16, 0, 0, 0] : List Nat) from rfl]
  rw [show List.replicate 4 (0:Nat) = [0, 0, 0, 0] from rfl]
  rw [show ([1, 0, 0, 0, 4, 0, 0, 0, 0, 0, 0, 0, 16, 0, 0, 0] : List Nat) ++
      ([0, 0, 0, 0] ++ List.replicate (8 * runs.length + k) 0) =
    ([1, 0, 0, 0, 4, 0, 0, 0, 0, 0, 0, 0, 16, 0, 0, 0] : List Nat) ++
      0 :: 0 :: 0 :: 0 :: List.replicate (8 * runs.length + k) 0 by simp]
  rw [writeU32_pos [1, 0, 0, 0, 4, 0, 0, 0, 0, 0, 0, 0, 16, 0, 0, 0] 16 rfl]
  rw [show (([1, 0, 0, 0, 4, 0, 0, 0, 0, 0, 0, 0, 16, 0, 0, 0] : List Nat) ++
      u32le (4 + (8 * runs.length + k))) ++ List.replicate (8 * runs.length + k) 0 =
    ([1, 0, 0, 0] : List Nat) ++ 4 :: 0 :: 0 :: 0 ::
      (([0, 0, 0, 0, 16, 0, 0, 0] : List Nat) ++ u32le (4 + (8 * runs.length + k)) ++
        List.replicate (8 * runs.length + k) 0) by simp]
  rw [writeU32_pos [1, 0, 0, 0] 4 rfl]
  rw [show (([1, 0, 0, 0] : List Nat) ++ u32le (4 + (8 * runs.length + k))) ++
      (([0, 0, 0, 0, 16, 0, 0, 0] : List Nat) ++ u32le (4 + (8 * runs.length + k)) ++
        List.replicate (8 * runs.length + k) 0) =
    ([1, 0] : List Nat) ++ 0 :: 0 ::
      (u32le (4 + (8 * runs.length + k)) ++ ([0, 0, 0, 0, 16, 0, 0, 0] : List Nat) ++
        u32le (4 + (8 * runs.length + k)) ++ List.replicate (8 * runs.length + k) 0) by
      simp [u32le]]
  rw [writeU16_pos [1, 0] 2 rfl]
  rw [show ([1, 0] : List Nat) ++ runs.length % 256 :: runs.length / 256 % 256 ::
      (u32le (4 + (8 * runs.length + k)) ++ ([0, 0, 0, 0, 16, 0, 0, 0] : List Nat) ++
        u32le (4 + (8 * runs.length + k)) ++ List.replicate (8 * runs.length + k) 0) =
    (([1, 0] : List Nat) ++ [runs.length % 256, runs.length / 256 % 256] ++
      u32le (4 + (8 * runs.length + k)) ++ ([0, 0, 0, 0, 16, 0, 0, 0] : List Nat) ++
      u32le (4 + (8 * runs.length + k))) ++ List.replicate (8 * runs.length + k) 0 by simp]
  rw [writeEntriesAt_zeros es _ 20 (8 * runs.length + k) (by simp [u32le]) (by omega)]
  rw [show 8 * runs.length + k - 8 * es.length = k by omega]
  rw [show (([1, 0] : List Nat) ++ [runs.length % 256, runs.length / 256 % 256] ++
      u32le (4 + (8 * runs.length + k)) ++ ([0, 0, 0, 0, 16, 0, 0, 0] : List Nat) ++
      u32le (4 + (8 * runs.length + k))) ++ entriesBytes es ++ List.replicate k 0 =
    ((([1, 0] : List Nat) ++ [runs.length % 256, runs.length / 256 % 256] ++
      u32le (4 + (8 * runs.length + k)) ++ ([0, 0, 0, 0, 16, 0, 0, 0] : List Nat) ++
      u32le (4 + (8 * runs.length + k))) ++ entriesBytes es) ++ List.replicate k 0 by simp]
  have hcopy := copyRuns_fill runs (4 + 8 * runs.length)
    (([1, 0] : List Nat) ++ [runs.length % 256, runs.length / 256 % 256] ++
      u32le (4 + (8 * runs.length + k)) ++ ([0, 0, 0, 0, 16, 0, 0, 0] : List Nat) ++
      u32le (4 + (8 * runs.length + k)) ++ entriesBytes es) k
    (by simp [u32le, entriesBytes_length, hlen]; omega) (by rw [hp]; dsimp only; omega)
  rw [hp] at hcopy
  dsimp only at hcopy
  rw [show (([1, 0] : List Nat) ++ [runs.length % 256, runs.length / 256 % 256] ++
      u32le (4 + (8 * runs.length + k)) ++ ([0, 0, 0, 0, 16, 0, 0, 0] : List Nat) ++
      u32le (4 + (8 * runs.length + k))) ++ entriesBytes es =
    ([1, 0] : List Nat) ++ [runs.length % 256, runs.length / 256 % 256] ++
      u32le (4 + (8 * runs.length + k)) ++ ([0, 0, 0, 0, 16, 0, 0, 0] : List Nat) ++
      u32le (4 + (8 * runs.length + k)) ++ entriesBytes es by simp]
  rw [hcopy]
  rw [show 4 + (8 * runs.length + k) - (4 + 8 * runs.length) = k by omega]
  rw [Nat.sub_self]
  simp [u16le, List.append_assoc]

/-- The buffer produced by from_lines: the line_data layout with the entry
table rewritten to carry the supplied flags. -/
theorem from_lines_eq (cfg : TextConfig) (remap : Bool) (L : List PyStr) (flags : List Nat)
    (runs : List (List Nat)) (hconv : convert_lines_to_data cfg remap false L = Except.ok runs)
    (hfl : flags.length = runs.length) :
    from_lines cfg remap L flags = Except.ok
      ([1, 0] ++ u16le runs.length ++ u32le (entriesLoop runs (4 + 8 * runs.length)).2 ++
       [0, 0, 0, 0, 16, 0, 0, 0] ++
       u32le (entriesLoop runs (4 + 8 * runs.length)).2 ++
       entriesBytes (flagEntries (entriesLoop runs (4 + 8 * runs.length)).1 flags) ++
       bodyBytes runs (4 + 8 * runs.length)) := by
  unfold from_lines
  rw [hconv]
  dsimp only
  rw [if_neg (by rw [entriesLoop_fst_length]; omega)]
  rw [line_data_set_eq]
  rw [writeEntriesAt_replace (flagEntries (entriesLoop runs (4 + 8 * runs.length)).1 flags)
    (entriesLoop runs (4 + 8 * runs.length)).1 _ _ (16 + 4)
    (by simp [u16le, u32le])
    (by simp [flagEntries, entriesLoop_fst_length, hfl])]

theorem encrypt_ok : ∀ (b : List Nat) (k : Nat),
    (∀ x ∈ b, x < 256) → k < 65536 → b.length % 2 = 0 →
    ∃ e, encrypt_line_data b k = some e ∧ e.length = b.length ∧ (∀ x ∈ e, x < 256)
  | [], _, _, _, _ => ⟨[], rfl, rfl, by simp⟩
  | [_], _, _, _, he => by simp at he
  | a :: c :: rest, k, hb, hk, he => by
    have ha : a < 256 := hb a (by simp)
    have hc : c < 256 := hb c (by simp)
    have hx : (a + 256 * c) ^^^ k < 65536 := xor_lt_65536 (by omega) hk
    obtain ⟨e, hrec, hlen, hbytes⟩ := encrypt_ok rest (rotKey k)
      (fun x hx => hb x (by simp [hx])) (rotKey_lt k) (by simp only [List.length_cons] at he; omega)
    refine ⟨((a + 256 * c) ^^^ k) % 256 :: ((a + 256 * c) ^^^ k) / 256 % 256 :: e, ?_, ?_, ?_⟩
    · simp only [encrypt_line_data, if_pos hx, hrec]
    · simp [hlen]
    · intro x hxm
      simp only [List.mem_cons] at hxm
      rcases hxm with h | h | h
      · omega
      · omega
      · exact hbytes x h

theorem packU16_length (vs : List Nat) : (packU16 vs).length = 2 * vs.length := by
  induction vs with
  | nil => rfl
  | cons v vs ih => simp [packU16, u16le] at ih ⊢; omega

theorem packU16_bytes (vs : List Nat) : ∀ x ∈ packU16 vs, x < 256 := by
  induction vs with
  | nil => simp [packU16]
  | cons v vs ih =>
    intro x hx
    simp only [packU16, u16le, List.flatMap_cons, List.cons_append, List.mem_cons,
      List.nil_append] at hx
    rcases hx with h | h | h
    · omega
    · omega
    · exact ih x (by simpa [packU16] using h)

theorem convertLoop_length (cfg : TextConfig) (remap : Bool) (se : Bool) :
    ∀ (L : List PyStr) (i key : Nat) (runs : List (List Nat)),
    convertLoop cfg remap se i key L = Except.ok runs → runs.length = L.length
  | [], _, _, runs, h => by
    simp only [convertLoop] at h
    injection h with h
    subst h
    rfl
  | text :: rest, i, key, runs, h => by
    simp only [convertLoop] at h
    rcases h1 : string_to_line_data cfg remap (convertText se i text) with e | dec
    · rw [h1] at h; exact Except.noConfusion h
    rw [h1] at h
    dsimp only at h
    rcases h2 : encrypt_line_data dec key with _ | enc
    · rw [h2] at h; exact Except.noConfusion h
    rw [h2] at h
    dsimp only at h
    rcases h3 : convertLoop cfg remap se (i+1) ((key + ADVANCE_KEY) &&& 0xFFFF) rest with e | r
    · rw [h3] at h; exact Except.noConfusion h
    rw [h3] at h
    dsimp only at h
    injection h with h
    subst h
    have := convertLoop_length cfg remap se rest (i+1) ((key + ADVANCE_KEY) &&& 0xFFFF) r h3
    simp [this]

theorem string_to_line_data_even (cfg : TextConfig) (remap : Bool) (t : PyStr)
    (dec : List Nat) (h : string_to_line_data cfg remap t = Except.ok dec) :
    dec.length % 2 = 0 ∧ ∀ x ∈ dec, x < 256 := by
  unfold string_to_line_data at h
  rcases h1 : s2lLoop cfg remap (t.length + 1) t with e | r
  · rw [h1] at h; exact Except.noConfusion h
  rw [h1] at h
  dsimp only at h
  split at h
  · injection h with h
    subst h
    constructor
    · rw [packU16_length]; omega
    · exact packU16_bytes _
  · exact Except.noConfusion h

theorem convertLoop_even (cfg : TextConfig) (remap : Bool) (se : Bool) :
    ∀ (L : List PyStr) (i key : Nat) (runs : List (List Nat)),
    key < 65536 →
    convertLoop cfg remap se i key L = Except.ok runs →
    ∀ v ∈ runs, v.length % 2 = 0 ∧ ∀ x ∈ v, x < 256
  | [], _, _, runs, _, h => by
    simp only [convertLoop] at h
    injection h with h
    subst h
    simp
  | text :: rest, i, key, runs, hk, h => by
    simp only [convertLoop] at h
    rcases h1 : string_to_line_data cfg remap (convertText se i text) with e | dec
    · rw [h1] at h; exact Except.noConfusion h
    rw [h1] at h
    dsimp only at h
    rcases h2 : encrypt_line_data dec key with _ | enc
    · rw [h2] at h; exact Except.noConfusion h
    rw [h2] at h
    dsimp only at h
    rcases h3 : convertLoop cfg remap se (i+1) ((key + ADVANCE_KEY) &&& 0xFFFF) rest with e | r
    · rw [h3] at h; exact Except.noConfusion h
    rw [h3] at h
    dsimp only at h
    injection h with h
    subst h
    intro v hv
    have hk2 : (key + ADVANCE_KEY) &&& 0xFFFF < 65536 := by rw [and_mask_eq_mod]; omega
    rcases List.mem_cons.mp hv with hvh | hvt
    · subst hvh
      obtain ⟨hde, hdb⟩ := string_to_line_data_even cfg remap _ dec h1
      obtain ⟨e2, he2, hlen2, hb2⟩ := encrypt_ok dec key hdb hk hde
      rw [h2] at he2
      injection he2 with he2
      subst he2
      exact ⟨by omega, hb2⟩
    · exact convertLoop_even cfg remap se rest (i+1) _ r hk2 h3 v hvt

theorem entriesLoop_offsets : ∀ (runs : List (List Nat)) (used : Nat),
    used % 4 = 0 → (∀ v ∈ runs, v.length % 2 = 0) →
    ∀ e ∈ (entriesLoop runs used).1, ∃ u : Nat, e.offset = (u : Int) ∧ u % 4 = 0 ∧
      used ≤ u ∧ u ≤ (entriesLoop runs used).2
  | [], _, _, _ => by simp [entriesLoop]
  | v :: rest, used, h4, hev => by
    intro e he
    simp only [entriesLoop, List.mem_cons] at he ⊢
    rcases he with he | he
    · refine ⟨used, by rw [he], h4, Nat.le_refl _, ?_⟩
      split
      · have h1 := entriesLoop_le rest (used + v.length + 2); omega
      · have h1 := entriesLoop_le rest (used + v.length); omega
    · have hv : v.length % 2 = 0 := hev v (by simp)
      have h43 : (if (used + v.length) % 4 = 2 then used + v.length + 2
          else used + v.length) % 4 = 0 := by split <;> omega
      obtain ⟨u, hu, hu4, hule, huub⟩ := entriesLoop_offsets rest _ h43
        (fun w hw => hev w (by simp [hw])) e he
      refine ⟨u, hu, hu4, ?_, huub⟩
      split at hule <;> omega

theorem entriesLoop_head : ∀ (v : List Nat) (rest : List (List Nat)) (used : Nat),
    (entriesLoop (v :: rest) used).1[0]? = some ⟨(used : Int), v.length / 2, 0⟩ := by
  intro v rest used
  simp [entriesLoop]

theorem entriesLoop_succ : ∀ (runs : List (List Nat)) (used : Nat) (i : Nat)
    (e1 e2 : TextLine) (v : List Nat),
    (entriesLoop runs used).1[i]? = some e1 →
    (entriesLoop runs used).1[i+1]? = some e2 →
    runs[i]? = some v →
    e2.offset = e1.offset + (v.length : Int) +
      (if (e1.offset.toNat + v.length) % 4 = 2 then 2 else 0)
  | [], _, _, _, _, _, h1, _, _ => by simp [entriesLoop] at h1
  | v0 :: rest, used, 0, e1, e2, v, h1, h2, hv => by
    simp only [entriesLoop, List.getElem?_cons_zero, List.getElem?_cons_succ] at h1 h2 hv
    injection h1 with h1
    injection hv with hv
    subst h1
    subst hv
    match rest, h2 with
    | w :: rest2, h2 =>
      rw [entriesLoop_head] at h2
      injection h2 with h2
      subst h2
      simp only [TextLine.mk.injEq]
      split <;> (simp only [Int.toNat_natCast] at *) <;> split <;> omega
  | v0 :: rest, used, i+1, e1, e2, v, h1, h2, hv => by
    simp only [entriesLoop, List.getElem?_cons_succ] at h1 h2 hv
    exact entriesLoop_succ rest _ i e1 e2 v h1 h2 hv

theorem readU16_append (a l : List Nat) (k : Nat) :
    readU16 (a ++ l) (a.length + k) = readU16 l k := by
  unfold readU16
  have h1 : a.length + k - a.length = k := by omega
  have h2 : a.length + k + 1 - a.length = k + 1 := by omega
  rw [List.getElem?_append_right (by omega : a.length ≤ a.length + k),
    List.getElem?_append_right (by omega : a.length ≤ a.length + k + 1), h1, h2]

theorem readU16_pos (a l : List Nat) (i : Nat) (h : a.length = i) :
    readU16 (a ++ l) i = readU16 l 0 := by
  subst h
  simpa using readU16_append a l 0

theorem readU32_pos (a l : List Nat) (i : Nat) (h : a.length = i) :
    readU32 (a ++ l) i = readU32 l 0 := by
  subst h
  unfold readU32
  rw [readU16_pos a l a.length rfl, readU16_append a l 2]

theorem readU16_cons (x y : Nat) (t : List Nat) :
    readU16 (x :: y :: t) 0 = some (x + 256 * y) := by simp [readU16]

theorem readU16_u16le (v : Nat) (t : List Nat) :
    readU16 (u16le v ++ t) 0 = some (v % 65536) := by
  rw [show u16le v ++ t = v % 256 :: v / 256 % 256 :: t by simp [u16le]]
  rw [readU16_cons]
  congr 1
  omega

theorem readU32_cons (x0 x1 x2 x3 : Nat) (t : List Nat) :
    readU32 (x0 :: x1 :: x2 :: x3 :: t) 0 = some (x0 + 256 * x1 + 65536 * (x2 + 256 * x3)) := by
  unfold readU32
  rw [show readU16 (x0 :: x1 :: x2 :: x3 :: t) 0 = some (x0 + 256 * x1) by simp [readU16]]
  rw [show readU16 (x0 :: x1 :: x2 :: x3 :: t) 2 = some (x2 + 256 * x3) by simp [readU16]]

theorem readU32_u32le (v : Nat) (t : List Nat) :
    readU32 (u32le v ++ t) 0 = some (v % 4294967296) := by
  rw [show u32le v ++ t = v % 256 :: v / 256 % 256 :: v / 65536 % 256 ::
    v / 16777216 % 256 :: t by simp [u32le]]
  rw [readU32_cons]
  congr 1
  omega

/-- Entries whose fields fit their packed widths. -/
def entryFits (e : TextLine) : Prop :=
  (∃ u : Nat, e.offset = (u : Int) ∧ u < 2 ^ 31) ∧ e.length < 65536 ∧ e.flags < 65536

theorem readEntries_entriesBytes : ∀ (es : List TextLine) (a t : List Nat) (i : Nat),
    a.length = i → (∀ e ∈ es, entryFits e) →
    readEntries (a ++ (entriesBytes es ++ t)) i es.length = some es
  | [], a, t, i, h, _ => by simp [readEntries]
  | e :: es, a, t, i, h, hfit => by
    subst h
    obtain ⟨⟨u, hu, hu31⟩, hlen, hfl⟩ := hfit e (by simp)
    have hutn : e.offset.toNat = u := by omega
    have h32 : readI32 (a ++ (entriesBytes (e :: es) ++ t)) a.length = some e.offset := by
      unfold readI32
      have hr : readU32 (a ++ (entriesBytes (e :: es) ++ t)) a.length = some u := by
        rw [show a ++ (entriesBytes (e :: es) ++ t) =
          a ++ (u32le u ++ (u16le e.length ++ (u16le e.flags ++ (entriesBytes es ++ t)))) by
          simp [entriesBytes, entryBytes, hutn]]
        rw [readU32_pos a _ a.length rfl, readU32_u32le]
        congr 1
        omega
      rw [hr]
      dsimp only
      rw [if_pos hu31, ← hu]
    have h16a : readU16 (a ++ (entriesBytes (e :: es) ++ t)) (a.length + 4) = some e.length := by
      rw [show a ++ (entriesBytes (e :: es) ++ t) =
        (a ++ u32le u) ++ (u16le e.length ++ (u16le e.flags ++ (entriesBytes es ++ t))) by
        simp [entriesBytes, entryBytes, hutn]]
      rw [readU16_pos (a ++ u32le u) _ (a.length + 4) (by simp [u32le]), readU16_u16le]
      congr 1
      omega
    have h16b : readU16 (a ++ (entriesBytes (e :: es) ++ t)) (a.length + 6) = some e.flags := by
      rw [show a ++ (entriesBytes (e :: es) ++ t) =
        (a ++ u32le u ++ u16le e.length) ++ (u16le e.flags ++ (entriesBytes es ++ t)) by
        simp [entriesBytes, entryBytes, hutn]]
      rw [readU16_pos _ _ (a.length + 6) (by simp [u32le, u16le]), readU16_u16le]
      congr 1
      omega
    have hentry : readEntry (a ++ (entriesBytes (e :: es) ++ t)) a.length = some e := by
      unfold readEntry
      rw [h32, h16a, h16b]
    have hrec : readEntries (a ++ (entriesBytes (e :: es) ++ t)) (a.length + 8) es.length
        = some es := by
      rw [show a ++ (entriesBytes (e :: es) ++ t) =
        (a ++ entryBytes e) ++ (entriesBytes es ++ t) by simp [entriesBytes]]
      exact readEntries_entriesBytes es (a ++ entryBytes e) t (a.length + 8)
        (by simp [entryBytes, u32le, u16le]) (fun e2 he2 => hfit e2 (by simp [he2]))
    show (match readEntry (a ++ (entriesBytes (e :: es) ++ t)) a.length with
      | none => none
      | some e2 =>
        match readEntries (a ++ (entriesBytes (e :: es) ++ t)) (a.length + 8) es.length with
        | none => none
        | some r => some (e2 :: r)) = some (e :: es)
    rw [hentry, hrec]

theorem entriesLoop_run_le : ∀ (runs : List (List Nat)) (used : Nat),
    ∀ v ∈ runs, used + v.length ≤ (entriesLoop runs used).2
  | [], _ => by simp
  | v :: rest, used => by
    intro w hw
    simp only [entriesLoop, List.mem_cons] at hw ⊢
    rcases hw with hw | hw
    · subst hw
      split
      · have h1 := entriesLoop_le rest (used + w.length + 2); omega
      · have h1 := entriesLoop_le rest (used + w.length); omega
    · split
      · have h1 := entriesLoop_le rest (used + v.length + 2)
        have h2 := entriesLoop_run_le rest (used + v.length + 2) w hw
        omega
      · have h1 := entriesLoop_le rest (used + v.length)
        have h2 := entriesLoop_run_le rest (used + v.length) w hw
        omega

theorem entriesLoop_lengths : ∀ (runs : List (List Nat)) (used : Nat),
    ∀ e ∈ (entriesLoop runs used).1, ∃ v ∈ runs, e.length = v.length / 2
  | [], _ => by simp [entriesLoop]
  | v :: rest, used => by
    intro e he
    simp only [entriesLoop, List.mem_cons] at he
    rcases he with he | he
    · exact ⟨v, by simp, by rw [he]⟩
    · obtain ⟨w, hw, hwe⟩ := entriesLoop_lengths rest _ e he
      exact ⟨w, by simp [hw], hwe⟩

theorem flagEntries_mem : ∀ (es : List TextLine) (flags : List Nat) (e2 : TextLine),
    e2 ∈ flagEntries es flags → ∃ e ∈ es, ∃ f ∈ flags, e2 = ⟨e.offset, e.length, f⟩
  | [], _, _, h => by simp [flagEntries] at h
  | _ :: _, [], _, h => by simp [flagEntries] at h
  | e :: es, f :: flags, e2, h => by
    simp only [flagEntries, List.zipWith_cons_cons, List.mem_cons] at h
    rcases h with h | h
    · exact ⟨e, by simp, f, by simp, h⟩
    · obtain ⟨e3, he3, f3, hf3, hrest⟩ := flagEntries_mem es flags e2 h
      exact ⟨e3, by simp [he3], f3, by simp [hf3], hrest⟩

theorem flagEntries_length : ∀ (es : List TextLine) (flags : List Nat),
    (flagEntries es flags).length = min es.length flags.length := by
  intro es flags
  simp [flagEntries]

theorem flagEntries_proj : ∀ (es : List TextLine) (flags : List Nat),
    flags.length = es.length →
    (flagEntries es flags).map (fun e => (e.offset, e.length)) =
      es.map (fun e => (e.offset, e.length))
  | [], [], _ => rfl
  | [], _ :: _, h => by simp at h
  | _ :: _, [], h => by simp at h
  | e :: es, f :: flags, h => by
    simp only [flagEntries, List.zipWith_cons_cons, List.map_cons]
    have := flagEntries_proj es flags (by simpa using h)
    simp only [flagEntries] at this
    rw [this]

/-- C8: in every container produced by the encode path, each computed line
entry offset is a 4-byte-aligned position at or past the entry table; the
offset of each successive entry advances by the run plus two padding bytes
exactly when the cursor lands on 2 mod 4 (the emitted body interleaves the
runs with those zero bytes, see bodyBytes in from_lines_eq); and the
emitted buffer's line_count, total_length and section_length fields read
back as the number of lines and the recomputed payload size, with the
entry table reading back as the computed entries carrying the caller's
flags. -/
theorem c8_encoder_layout (cfg : TextConfig) (remap : Bool) (L : List PyStr)
    (flags : List Nat) (runs : List (List Nat)) (B : List Nat)
    (hconv : convert_lines_to_data cfg remap false L = Except.ok runs)
    (hfl : flags.length = runs.length)
    (hflb : ∀ f ∈ flags, f < 65536)
    (hB : from_lines cfg remap L flags = Except.ok B)
    (hcount : L.length < 65536)
    (hrlen : ∀ v ∈ runs, v.length < 131072)
    (hsize : (entriesLoop runs (4 + 8 * runs.length)).2 < 2 ^ 31) :
    (∀ e ∈ (entriesLoop runs (4 + 8 * runs.length)).1,
      ∃ u : Nat, e.offset = (u : Int) ∧ u % 4 = 0 ∧ 4 + 8 * runs.length ≤ u) ∧
    (∀ (i : Nat) (e1 e2 : TextLine) (v : List Nat),
      (entriesLoop runs (4 + 8 * runs.length)).1[i]? = some e1 →
      (entriesLoop runs (4 + 8 * runs.length)).1[i+1]? = some e2 →
      runs[i]? = some v →
      e2.offset = e1.offset + (v.length : Int) +
        (if (e1.offset.toNat + v.length) % 4 = 2 then 2 else 0)) ∧
    readU16 B 2 = some L.length ∧
    readU32 B 4 = some (entriesLoop runs (4 + 8 * runs.length)).2 ∧
    readU32 B 16 = some (entriesLoop runs (4 + 8 * runs.length)).2 ∧
    B.length = 16 + (entriesLoop runs (4 + 8 * runs.length)).2 ∧
    readEntries B 20 runs.length =
      some (flagEntries (entriesLoop runs (4 + 8 * runs.length)).1 flags) ∧
    (flagEntries (entriesLoop runs (4 + 8 * runs.length)).1 flags).map
        (fun e => (e.offset, e.length)) =
      (entriesLoop runs (4 + 8 * runs.length)).1.map (fun e => (e.offset, e.length)) := by
  have hlen : runs.length = L.length :=
    convertLoop_length cfg remap false L 0 BASE_KEY runs hconv
  have hev : ∀ v ∈ runs, v.length % 2 = 0 := fun v hv =>
    (convertLoop_even cfg remap false L 0 BASE_KEY runs (by decide) hconv v hv).1
  have hle := entriesLoop_le runs (4 + 8 * runs.length)
  have hnlen := entriesLoop_fst_length runs (4 + 8 * runs.length)
  have hbl := bodyBytes_length runs (4 + 8 * runs.length)
  have hBeq := from_lines_eq cfg remap L flags runs hconv hfl
  rw [hB] at hBeq
  injection hBeq with hBeq
  subst hBeq
  refine ⟨?_, ?_, ?_, ?_, ?_, ?_, ?_, ?_⟩
  · intro e he
    obtain ⟨u, h1, h2, h3, -⟩ := entriesLoop_offsets runs (4 + 8 * runs.length)
      (by omega) hev e he
    exact ⟨u, h1, h2, h3⟩
  · exact fun i e1 e2 v h1 h2 h3 => entriesLoop_succ runs _ i e1 e2 v h1 h2 h3
  · rw [show ([1, 0] : List Nat) ++ u16le runs.length ++
        u32le (entriesLoop runs (4 + 8 * runs.length)).2 ++
        ([0, 0, 0, 0, 16, 0, 0, 0] : List Nat) ++
        u32le (entriesLoop runs (4 + 8 * runs.length)).2 ++
        entriesBytes (flagEntries (entriesLoop runs (4 + 8 * runs.length)).1 flags) ++
        bodyBytes runs (4 + 8 * runs.length) =
      ([1, 0] : List Nat) ++ (u16le runs.length ++
        (u32le (entriesLoop runs (4 + 8 * runs.length)).2 ++
        (([0, 0, 0, 0, 16, 0, 0, 0] : List Nat) ++
        (u32le (entriesLoop runs (4 + 8 * runs.length)).2 ++
        (entriesBytes (flagEntries (entriesLoop runs (4 + 8 * runs.length)).1 flags) ++
        bodyBytes runs (4 + 8 * runs.length)))))) by simp]
    rw [readU16_pos ([1, 0] : List Nat) _ 2 rfl, readU16_u16le]
    rw [show runs.length % 65536 = L.length by omega]
  · rw [show ([1, 0] : List Nat) ++ u16le runs.length ++
        u32le (entriesLoop runs (4 + 8 * runs.length)).2 ++
        ([0, 0, 0, 0, 16, 0, 0, 0] : List Nat) ++
        u32le (entriesLoop runs (4 + 8 * runs.length)).2 ++
        entriesBytes (flagEntries (entriesLoop runs (4 + 8 * runs.length)).1 flags) ++
        bodyBytes runs (4 + 8 * runs.length) =
      (([1, 0] : List Nat) ++ u16le runs.length) ++
        (u32le (entriesLoop runs (4 + 8 * runs.length)).2 ++
        (([0, 0, 0, 0, 16, 0, 0, 0] : List Nat) ++
        (u32le (entriesLoop runs (4 + 8 * runs.length)).2 ++
        (entriesBytes (flagEntries (entriesLoop runs (4 + 8 * runs.length)).1 flags) ++
        bodyBytes runs (4 + 8 * runs.length))))) by simp]
    rw [readU32_pos _ _ 4 (by simp [u16le]), readU32_u32le]
    rw [show (entriesLoop runs (4 + 8 * runs.length)).2 % 4294967296 =
      (entriesLoop runs (4 + 8 * runs.length)).2 by omega]
  · rw [show ([1, 0] : List Nat) ++ u16le runs.length ++
        u32le (entriesLoop runs (4 + 8 * runs.length)).2 ++
        ([0, 0, 0, 0, 16, 0, 0, 0] : List Nat) ++
        u32le (entriesLoop runs (4 + 8 * runs.length)).2 ++
        entriesBytes (flagEntries (entriesLoop runs (4 + 8 * runs.length)).1 flags) ++
        bodyBytes runs (4 + 8 * runs.length) =
      (([1, 0] : List Nat) ++ u16le runs.length ++
        u32le (entriesLoop runs (4 + 8 * runs.length)).2 ++
        ([0, 0, 0, 0, 16, 0, 0, 0] : List Nat)) ++
        (u32le (entriesLoop runs (4 + 8 * runs.length)).2 ++
        (entriesBytes (flagEntries (entriesLoop runs (4 + 8 * runs.length)).1 flags) ++
        bodyBytes runs (4 + 8 * runs.length))) by simp]
    rw [readU32_pos _ _ 16 (by simp [u16le, u32le]), readU32_u32le]
    rw [show (entriesLoop runs (4 + 8 * runs.length)).2 % 4294967296 =
      (entriesLoop runs (4 + 8 * runs.length)).2 by omega]
  · simp only [List.length_append, List.length_cons, List.length_nil,
      entriesBytes_length, flagEntries_length, hnlen, hfl, u16le, u32le]
    omega
  · have hfits : ∀ e2 ∈ flagEntries (entriesLoop runs (4 + 8 * runs.length)).1 flags,
        entryFits e2 := by
      intro e2 he2
      obtain ⟨e, he, f, hf, rfl⟩ := flagEntries_mem _ _ _ he2
      obtain ⟨u, hu, -, -, huub⟩ := entriesLoop_offsets runs (4 + 8 * runs.length)
        (by omega) hev e he
      obtain ⟨v, hv, hevlen⟩ := entriesLoop_lengths runs (4 + 8 * runs.length) e he
      have hrv := hrlen v hv
      refine ⟨⟨u, by simpa using hu, by omega⟩, ?_, by simpa using hflb f hf⟩
      show e.length < 65536
      omega
    rw [show ([1, 0] : List Nat) ++ u16le runs.length ++
        u32le (entriesLoop runs (4 + 8 * runs.length)).2 ++
        ([0, 0, 0, 0, 16, 0, 0, 0] : List Nat) ++
        u32le (entriesLoop runs (4 + 8 * runs.length)).2 ++
        entriesBytes (flagEntries (entriesLoop runs (4 + 8 * runs.length)).1 flags) ++
        bodyBytes runs (4 + 8 * runs.length) =
      (([1, 0] : List Nat) ++ u16le runs.length ++
        u32le (entriesLoop runs (4 + 8 * runs.length)).2 ++
        ([0, 0, 0, 0, 16, 0, 0, 0] : List Nat) ++
        u32le (entriesLoop runs (4 + 8 * runs.length)).2) ++
        (entriesBytes (flagEntries (entriesLoop runs (4 + 8 * runs.length)).1 flags) ++
        bodyBytes runs (4 + 8 * runs.length)) by simp]
    have hre := readEntries_entriesBytes
      (flagEntries (entriesLoop runs (4 + 8 * runs.length)).1 flags)
      (([1, 0] : List Nat) ++ u16le runs.length ++
        u32le (entriesLoop runs (4 + 8 * runs.length)).2 ++
        ([0, 0, 0, 0, 16, 0, 0, 0] : List Nat) ++
        u32le (entriesLoop runs (4 + 8 * runs.length)).2)
      (bodyBytes runs (4 + 8 * runs.length)) 20 (by simp [u16le, u32le]) hfits
    rw [show (flagEntries (entriesLoop runs (4 + 8 * runs.length)).1 flags).length
      = runs.length by rw [flagEntries_length]; omega] at hre
    exact hre
  · exact flagEntries_proj _ _ (by omega)

/-- The C8 witness container: two lines A and BB with flags 1 and 2. -/
def c8buf : List Nat :=
  [1, 0, 2, 0, 32, 0, 0, 0, 0, 0, 0, 0, 16, 0, 0, 0, 32, 0, 0, 0,
   20, 0, 0, 0, 2, 0, 1, 0, 24, 0, 0, 0, 3, 0, 2, 0,
   200, 124, 75, 228, 78, 166, 39, 48, 41, 131, 0, 0]

/-- Witness for C8 at the two-line container of A and BB. -/
theorem c8_encoder_layout_witness :
    readU16 c8buf 2 = some 2 ∧ readU32 c8buf 4 = some 32 ∧
    readU32 c8buf 16 = some 32 ∧ c8buf.length = 16 + 32 :=
  ⟨(c8_encoder_layout lgpeConfig false [codes "A", codes "BB"] [1, 2]
      [[200, 124, 75, 228], [78, 166, 39, 48, 41, 131]] c8buf
      rfl rfl (by decide) rfl (by decide) (by decide) (by decide)).2.2.1,
   (c8_encoder_layout lgpeConfig false [codes "A", codes "BB"] [1, 2]
      [[200, 124, 75, 228], [78, 166, 39, 48, 41, 131]] c8buf
      rfl rfl (by decide) rfl (by decide) (by decide) (by decide)).2.2.2.1,
   (c8_encoder_layout lgpeConfig false [codes "A", codes "BB"] [1, 2]
      [[200, 124, 75, 228], [78, 166, 39, 48, 41, 131]] c8buf
      rfl rfl (by decide) rfl (by decide) (by decide) (by decide)).2.2.2.2.1,
   (c8_encoder_layout lgpeConfig false [codes "A", codes "BB"] [1, 2]
      [[200, 124, 75, 228], [78, 166, 39, 48, 41, 131]] c8buf
      rfl rfl (by decide) rfl (by decide) (by decide) (by decide)).2.2.2.2.2.1⟩

/-- A plain literal code unit: decoded and encoded as itself — not a
terminator, control code, escape-worthy character or table entry, and
untouched by the remap table. -/
def plainUnit (cfg : TextConfig) (remap : Bool) (u : Nat) : Prop :=
  u < 65536 ∧ u ≠ 0 ∧ u ≠ 0x0A ∧ u ≠ 0x10 ∧ u ≠ 91 ∧ u ≠ 92 ∧ u ≠ 123 ∧
  cfg.vars.find? (fun p => p.1 == u) = none ∧
  cfg.vars.find? (fun p => codes p.2 == [u]) = none ∧
  try_remap_character remap u = u

instance (cfg : TextConfig) (remap : Bool) (u : Nat) : Decidable (plainUnit cfg remap u) := by
  unfold plainUnit
  infer_instance

/-- The ciphertext run the encoder produces for one plain line. -/
def encRun (l : PyStr) (key : Nat) : List Nat :=
  (encrypt_line_data (packU16 (l ++ [TERMINATOR_KEY])) key).getD []

/-- The runs the encoder produces for a list of plain lines, with the
additive key schedule. -/
def runsView : List PyStr → Nat → List (List Nat)
  | [], _ => []
  | l :: rest, key => encRun l key :: runsView rest ((key + ADVANCE_KEY) &&& 0xFFFF)

theorem runsView_length : ∀ (L : List PyStr) (key : Nat), (runsView L key).length = L.length
  | [], _ => rfl
  | l :: rest, key => by simp [runsView, runsView_length rest]

theorem encRun_spec (l : PyStr) (k : Nat) (hk : k < 65536) :
    encrypt_line_data (packU16 (l ++ [TERMINATOR_KEY])) k = some (encRun l k) ∧
    (encRun l k).length = 2 * (l.length + 1) ∧
    (∀ x ∈ encRun l k, x < 256) ∧
    encrypt_line_data (encRun l k) k = some (packU16 (l ++ [TERMINATOR_KEY])) := by
  have heven : (packU16 (l ++ [TERMINATOR_KEY])).length % 2 = 0 := by
    rw [packU16_length]; omega
  obtain ⟨e, he, hel, heb⟩ := encrypt_ok (packU16 (l ++ [TERMINATOR_KEY])) k
    (packU16_bytes _) hk heven
  have henc : encRun l k = e := by unfold encRun; rw [he]; rfl
  have hinv := encrypt_line_data_involutive (packU16 (l ++ [TERMINATOR_KEY])) k
    (packU16_bytes _) hk heven
  rw [he, Option.some_bind] at hinv
  refine ⟨by rw [he, henc], ?_, by rw [henc]; exact heb, by rw [henc]; exact hinv⟩
  rw [henc, hel, packU16_length]
  simp

theorem convertText_false (i : Nat) (t : PyStr) : convertText false i t = pyStrip t := by
  simp [convertText]

theorem s2lLoop_plain (cfg : TextConfig) (remap : Bool) :
    ∀ (us : List Nat) (fuel : Nat), us.length + 1 ≤ fuel →
    (∀ u ∈ us, plainUnit cfg remap u) →
    s2lLoop cfg remap fuel us = Except.ok us
  | [], fuel, hf, _ => by
    obtain ⟨f, rfl⟩ : ∃ f, fuel = f + 1 := ⟨fuel - 1, by omega⟩
    rfl
  | u :: us, fuel, hf, hp => by
    obtain ⟨f, rfl⟩ : ∃ f, fuel = f + 1 := ⟨fuel - 1, by omega⟩
    obtain ⟨hu16, h0, hA, h10, h91, h92, h123, hfind, hname, hremap⟩ := hp u (by simp)
    have hrec := s2lLoop_plain cfg remap us f
      (by simp only [List.length_cons] at hf; omega) (fun w hw => hp w (by simp [hw]))
    simp only [s2lLoop, if_neg h91, if_neg h123, if_neg h92, hname, hrec, hremap]

theorem string_to_line_data_plain (cfg : TextConfig) (remap : Bool) (us : List Nat)
    (hp : ∀ u ∈ us, plainUnit cfg remap u) :
    string_to_line_data cfg remap us = Except.ok (packU16 (us ++ [TERMINATOR_KEY])) := by
  unfold string_to_line_data
  rw [s2lLoop_plain cfg remap us (us.length + 1) (Nat.le_refl _) hp]
  dsimp only
  rw [if_pos]
  rw [List.all_eq_true]
  intro x hx
  rcases List.mem_append.mp hx with h | h
  · have := hp x h
    simp only [plainUnit] at this
    simp
    omega
  · simp only [List.mem_singleton] at h
    subst h
    simp [TERMINATOR_KEY]

theorem parseLoop_plain (cfg : TextConfig) (remap : Bool) :
    ∀ (us : List Nat) (pre : List Nat) (fuel : Nat),
    us.length + 1 ≤ fuel →
    (∀ u ∈ us, plainUnit cfg remap u) →
    parseLoop cfg remap fuel (pre ++ packU16 (us ++ [TERMINATOR_KEY])) pre.length = some us
  | [], pre, fuel, hf, _ => by
    obtain ⟨f, rfl⟩ : ∃ f, fuel = f + 1 := ⟨fuel - 1, by omega⟩
    rw [parseLoop]
    rw [if_pos (by simp [packU16, u16le])]
    rw [show packU16 ([] ++ [TERMINATOR_KEY]) = [0, 0] from rfl]
    rw [readU16_pos pre [0, 0] pre.length rfl, readU16_cons]
    simp [TERMINATOR_KEY]
  | u :: us, pre, fuel, hf, hp => by
    obtain ⟨f, rfl⟩ : ∃ f, fuel = f + 1 := ⟨fuel - 1, by omega⟩
    obtain ⟨hu16, h0, hA, h10, h91, h92, h123, hfind, hname, hremap⟩ := hp u (by simp)
    have hsplit : packU16 ((u :: us) ++ [TERMINATOR_KEY]) =
        u16le u ++ packU16 (us ++ [TERMINATOR_KEY]) := by
      simp [packU16]
    rw [parseLoop]
    rw [if_pos (by
      rw [List.length_append, packU16_length]
      simp only [List.length_cons, List.length_append, List.length_nil]
      omega)]
    have hread : readU16 (pre ++ packU16 ((u :: us) ++ [TERMINATOR_KEY])) pre.length
        = some u := by
      rw [hsplit, show pre ++ (u16le u ++ packU16 (us ++ [TERMINATOR_KEY])) =
        pre ++ u16le u ++ packU16 (us ++ [TERMINATOR_KEY]) by simp]
      rw [show pre ++ u16le u ++ packU16 (us ++ [TERMINATOR_KEY]) =
        pre ++ (u16le u ++ packU16 (us ++ [TERMINATOR_KEY])) by simp]
      rw [readU16_pos pre _ pre.length rfl, readU16_u16le]
      congr 1
      omega
    rw [hread]
    have hgvs : get_variable_string cfg.vars u = hex4 u := by
      unfold get_variable_string
      rw [hfind]
    simp only [TERMINATOR_KEY, VARIABLE_KEY, if_neg h0, if_neg h10, if_neg hA,
      if_neg h92, if_neg h91, if_neg h123, hgvs, ne_eq, not_true_eq_false, if_neg,
      ite_false, not_false_eq_true, hremap]
    have hrec : parseLoop cfg remap f (pre ++ packU16 ((u :: us) ++ [TERMINATOR_KEY]))
        (pre.length + 2) = some us := by
      have h2 : pre.length + 2 = (pre ++ u16le u).length := by simp [u16le]
      rw [hsplit, show pre ++ (u16le u ++ packU16 (us ++ [TERMINATOR_KEY])) =
        (pre ++ u16le u) ++ packU16 (us ++ [TERMINATOR_KEY]) by simp, h2]
      exact parseLoop_plain cfg remap us (pre ++ u16le u) f
        (by simp only [List.length_cons] at hf; omega) (fun w hw => hp w (by simp [hw]))
    simp only [TERMINATOR_KEY] at hrec
    rw [hrec]
    simp

theorem parse_line_string_plain (cfg : TextConfig) (remap : Bool) (us : List Nat)
    (hp : ∀ u ∈ us, plainUnit cfg remap u) :
    parse_line_string cfg remap (packU16 (us ++ [TERMINATOR_KEY])) = some us := by
  unfold parse_line_string
  have h := parseLoop_plain cfg remap us [] _ (le_refl (us.length + 1)) hp
  have hfe : us.length + 1 ≤ (packU16 (us ++ [TERMINATOR_KEY])).length *
      (packU16 (us ++ [TERMINATOR_KEY])).length + (packU16 (us ++ [TERMINATOR_KEY])).length
      + 2 := by
    rw [packU16_length]
    simp only [List.length_append, List.length_cons, List.length_nil]
    nlinarith
  have hmono := parseLoop_plain cfg remap us []
    ((packU16 (us ++ [TERMINATOR_KEY])).length * (packU16 (us ++ [TERMINATOR_KEY])).length +
      (packU16 (us ++ [TERMINATOR_KEY])).length + 2) hfe hp
  simpa using hmono

theorem convertLoop_plain (cfg : TextConfig) (remap : Bool) :
    ∀ (L : List PyStr) (i key : Nat), key < 65536 →
    (∀ l ∈ L, (∀ u ∈ l, plainUnit cfg remap u) ∧ pyStrip l = l) →
    convertLoop cfg remap false i key L = Except.ok (runsView L key)
  | [], _, _, _, _ => rfl
  | l :: rest, i, key, hk, hp => by
    obtain ⟨hpl, hsl⟩ := hp l (by simp)
    have hrec := convertLoop_plain cfg remap rest (i+1) ((key + ADVANCE_KEY) &&& 0xFFFF)
      (by rw [and_mask_eq_mod]; omega) (fun w hw => hp w (by simp [hw]))
    have hs2l : string_to_line_data cfg remap (convertText false i l) =
        Except.ok (packU16 (l ++ [TERMINATOR_KEY])) := by
      rw [convertText_false, hsl]
      exact string_to_line_data_plain cfg remap l hpl
    obtain ⟨henc, -, -, -⟩ := encRun_spec l key hk
    simp only [convertLoop, hs2l, henc, hrec]
    rfl

theorem pySlice_at (a v w : List Nat) :
    pySlice (a ++ v ++ w) ((a.length : Nat) : Int)
      (((a.length : Nat) : Int) + ((v.length : Nat) : Int)) = v := by
  unfold pySlice pyIdx
  rw [if_neg (by omega), if_neg (by omega)]
  rw [show (((a.length : Nat) : Int) + ((v.length : Nat) : Int)).toNat =
    a.length + v.length by omega]
  rw [show ((a.length : Nat) : Int).toNat = a.length by omega]
  have hlen : (a ++ v ++ w).length = a.length + v.length + w.length := by
    simp only [List.length_append]
  rw [hlen]
  rw [show min (a.length + v.length) (a.length + v.length + w.length) =
    a.length + v.length by omega]
  rw [show min a.length (a.length + v.length + w.length) = a.length by omega]
  rw [show a.length + v.length = (a ++ v).length by simp]
  rw [List.take_left]
  exact List.drop_left a v

theorem linesLoop_emitted (cfg : TextConfig) (remap : Bool) :
    ∀ (L : List PyStr) (flags : List Nat) (used : Nat) (a B : List Nat) (key : Nat),
    key < 65536 →
    (∀ l ∈ L, ∀ u ∈ l, plainUnit cfg remap u) →
    flags.length = L.length →
    a.length = 16 + used →
    B = a ++ bodyBytes (runsView L key) used →
    linesLoop cfg remap B 16 key
      (flagEntries (entriesLoop (runsView L key) used).1 flags) = Except.ok L
  | [], flags, used, a, B, key, _, _, hfl, _, _ => by
    have hnil : flags = [] := List.eq_nil_of_length_eq_zero (by simpa using hfl)
    subst hnil
    simp [runsView, entriesLoop, flagEntries, linesLoop]
  | l :: L, flags, used, a, B, key, hk, hp, hfl, ha, hB => by
    match flags, hfl with
    | f :: flags, hfl =>
      obtain ⟨henc, hvl, hvb, hdec⟩ := encRun_spec l key hk
      have hk2 : (key + ADVANCE_KEY) &&& 0xFFFF < 65536 := by rw [and_mask_eq_mod]; omega
      have hpl : ∀ u ∈ l, plainUnit cfg remap u := hp l (by simp)
      have hparse := parse_line_string_plain cfg remap l hpl
      simp only [runsView, entriesLoop, flagEntries, List.zipWith_cons_cons]
      by_cases hpad : (used + (encRun l key).length) % 4 = 2
      · rw [if_pos hpad]
        have hBav : B = (a ++ encRun l key) ++
            (0 :: 0 :: bodyBytes (runsView L ((key + ADVANCE_KEY) &&& 0xFFFF))
              (used + (encRun l key).length + 2)) := by
          rw [hB]
          simp only [runsView, bodyBytes, if_pos hpad]
          simp
        rw [linesLoop]
        dsimp only
        rw [show ((16 : Nat) : Int) + ((used : Nat) : Int) +
            (((encRun l key).length / 2 * 2 : Nat) : Int) =
          ((a.length : Nat) : Int) + (((encRun l key).length : Nat) : Int) by omega]
        rw [show ((16 : Nat) : Int) + ((used : Nat) : Int) = ((a.length : Nat) : Int) by omega]
        rw [hBav]
        rw [show (a ++ encRun l key) ++
            (0 :: 0 :: bodyBytes (runsView L ((key + ADVANCE_KEY) &&& 0xFFFF))
              (used + (encRun l key).length + 2)) =
          a ++ encRun l key ++
            (0 :: 0 :: bodyBytes (runsView L ((key + ADVANCE_KEY) &&& 0xFFFF))
              (used + (encRun l key).length + 2)) from rfl]
        rw [pySlice_at]
        rw [hdec]
        dsimp only
        rw [hparse]
        dsimp only
        have hrec := linesLoop_emitted cfg remap L flags (used + (encRun l key).length + 2)
          (a ++ encRun l key ++ [0, 0])
          (a ++ encRun l key ++
            0 :: 0 :: bodyBytes (runsView L ((key + ADVANCE_KEY) &&& 0xFFFF))
              (used + (encRun l key).length + 2))
          ((key + ADVANCE_KEY) &&& 0xFFFF) hk2
          (fun w hw => hp w (by simp [hw])) (by simpa using hfl)
          (by simp only [List.length_append, List.length_cons, List.length_nil]; omega)
          (by simp)
        simp only [flagEntries] at hrec
        rw [hrec]
      · rw [if_neg hpad]
        have hBav : B = (a ++ encRun l key) ++
            bodyBytes (runsView L ((key + ADVANCE_KEY) &&& 0xFFFF))
              (used + (encRun l key).length) := by
          rw [hB]
          simp only [runsView, bodyBytes, if_neg hpad]
          simp
        rw [linesLoop]
        dsimp only
        rw [show ((16 : Nat) : Int) + ((used : Nat) : Int) +
            (((encRun l key).length / 2 * 2 : Nat) : Int) =
          ((a.length : Nat) : Int) + (((encRun l key).length : Nat) : Int) by omega]
        rw [show ((16 : Nat) : Int) + ((used : Nat) : Int) = ((a.length : Nat) : Int) by omega]
        rw [hBav]
        rw [show (a ++ encRun l key) ++
            bodyBytes (runsView L ((key + ADVANCE_KEY) &&& 0xFFFF))
              (used + (encRun l key).length) =
          a ++ encRun l key ++
            bodyBytes (runsView L ((key + ADVANCE_KEY) &&& 0xFFFF))
              (used + (encRun l key).length) from rfl]
        rw [pySlice_at]
        rw [hdec]
        dsimp only
        rw [hparse]
        dsimp only
        have hrec := linesLoop_emitted cfg remap L flags (used + (encRun l key).length)
          (a ++ encRun l key)
          (a ++ encRun l key ++ bodyBytes (runsView L ((key + ADVANCE_KEY) &&& 0xFFFF))
            (used + (encRun l key).length))
          ((key + ADVANCE_KEY) &&& 0xFFFF) hk2
          (fun w hw => hp w (by simp [hw])) (by simpa using hfl)
          (by simp only [List.length_append]; omega)
          (by simp)
        simp only [flagEntries] at hrec
        rw [hrec]

theorem runsView_mem_length : ∀ (L : List PyStr) (key : Nat), key < 65536 →
    ∀ v ∈ runsView L key, ∃ l ∈ L, v.length = 2 * (l.length + 1)
  | [], _, _ => by simp [runsView]
  | l :: rest, key, hk => by
    intro v hv
    simp only [runsView, List.mem_cons] at hv
    rcases hv with hv | hv
    · exact ⟨l, by simp, by rw [hv]; exact (encRun_spec l key hk).2.1⟩
    · obtain ⟨l2, hl2, he⟩ := runsView_mem_length rest ((key + ADVANCE_KEY) &&& 0xFFFF)
        (by rw [and_mask_eq_mod]; omega) v hv
      exact ⟨l2, by simp [hl2], he⟩

/-- The byte buffer produced by from_lines, as a single expression. -/
def emittedShape (runs : List (List Nat)) (flags : List Nat) : List Nat :=
  [1, 0] ++ u16le runs.length ++ u32le (entriesLoop runs (4 + 8 * runs.length)).2 ++
  [0, 0, 0, 0, 16, 0, 0, 0] ++ u32le (entriesLoop runs (4 + 8 * runs.length)).2 ++
  entriesBytes (flagEntries (entriesLoop runs (4 + 8 * runs.length)).1 flags) ++
  bodyBytes runs (4 + 8 * runs.length)

theorem from_lines_shape (cfg : TextConfig) (remap : Bool) (L : List PyStr) (flags : List Nat)
    (runs : List (List Nat)) (hconv : convert_lines_to_data cfg remap false L = Except.ok runs)
    (hfl : flags.length = runs.length) :
    from_lines cfg remap L flags = Except.ok (emittedShape runs flags) :=
  from_lines_eq cfg remap L flags runs hconv hfl

theorem emittedShape_reads (runs : List (List Nat)) (flags : List Nat)
    (hfl : flags.length = runs.length)
    (hsize : (entriesLoop runs (4 + 8 * runs.length)).2 < 2 ^ 31)
    (hcount : runs.length < 65536) :
    readU16 (emittedShape runs flags) 0 = some 1 ∧
    readU16 (emittedShape runs flags) 2 = some runs.length ∧
    readU32 (emittedShape runs flags) 4 = some (entriesLoop runs (4 + 8 * runs.length)).2 ∧
    readU32 (emittedShape runs flags) 8 = some 0 ∧
    readU32 (emittedShape runs flags) 12 = some 16 ∧
    readU32 (emittedShape runs flags) 16 = some (entriesLoop runs (4 + 8 * runs.length)).2 ∧
    (emittedShape runs flags).length = 16 + (entriesLoop runs (4 + 8 * runs.length)).2 := by
  have hle := entriesLoop_le runs (4 + 8 * runs.length)
  have hnlen := entriesLoop_fst_length runs (4 + 8 * runs.length)
  have hbl := bodyBytes_length runs (4 + 8 * runs.length)
  refine ⟨?_, ?_, ?_, ?_, ?_, ?_, ?_⟩
  · rw [show emittedShape runs flags = 1 :: 0 ::
      (u16le runs.length ++ u32le (entriesLoop runs (4 + 8 * runs.length)).2 ++
       ([0, 0, 0, 0, 16, 0, 0, 0] : List Nat) ++
       u32le (entriesLoop runs (4 + 8 * runs.length)).2 ++
       entriesBytes (flagEntries (entriesLoop runs (4 + 8 * runs.length)).1 flags) ++
       bodyBytes runs (4 + 8 * runs.length)) by simp [emittedShape]]
    rw [readU16_cons]
  · rw [show emittedShape runs flags = ([1, 0] : List Nat) ++
      (u16le runs.length ++ (u32le (entriesLoop runs (4 + 8 * runs.length)).2 ++
       (([0, 0, 0, 0, 16, 0, 0, 0] : List Nat) ++
       (u32le (entriesLoop runs (4 + 8 * runs.length)).2 ++
       (entriesBytes (flagEntries (entriesLoop runs (4 + 8 * runs.length)).1 flags) ++
       bodyBytes runs (4 + 8 * runs.length)))))) by simp [emittedShape]]
    rw [readU16_pos ([1, 0] : List Nat) _ 2 rfl, readU16_u16le]
    rw [show runs.length % 65536 = runs.length by omega]
  · rw [show emittedShape runs flags = (([1, 0] : List Nat) ++ u16le runs.length) ++
      (u32le (entriesLoop runs (4 + 8 * runs.length)).2 ++
       (([0, 0, 0, 0, 16, 0, 0, 0] : List Nat) ++
       (u32le (entriesLoop runs (4 + 8 * runs.length)).2 ++
       (entriesBytes (flagEntries (entriesLoop runs (4 + 8 * runs.length)).1 flags) ++
       bodyBytes runs (4 + 8 * runs.length))))) by simp [emittedShape]]
    rw [readU32_pos _ _ 4 (by simp [u16le]), readU32_u32le]
    rw [show (entriesLoop runs (4 + 8 * runs.length)).2 % 4294967296 =
      (entriesLoop runs (4 + 8 * runs.length)).2 by omega]
  · rw [show emittedShape runs flags = (([1, 0] : List Nat) ++ u16le runs.length ++
      u32le (entriesLoop runs (4 + 8 * runs.length)).2) ++
      (0 :: 0 :: 0 :: 0 ::
       (([16, 0, 0, 0] : List Nat) ++
       (u32le (entriesLoop runs (4 + 8 * runs.length)).2 ++
       (entriesBytes (flagEntries (entriesLoop runs (4 + 8 * runs.length)).1 flags) ++
       bodyBytes runs (4 + 8 * runs.length))))) by simp [emittedShape]]
    rw [readU32_pos _ _ 8 (by simp [u16le, u32le]), readU32_cons]
  · rw [show emittedShape runs flags = (([1, 0] : List Nat) ++ u16le runs.length ++
      u32le (entriesLoop runs (4 + 8 * runs.length)).2 ++ ([0, 0, 0, 0] : List Nat)) ++
      (16 :: 0 :: 0 :: 0 ::
       (u32le (entriesLoop runs (4 + 8 * runs.length)).2 ++
       (entriesBytes (flagEntries (entriesLoop runs (4 + 8 * runs.length)).1 flags) ++
       bodyBytes runs (4 + 8 * runs.length)))) by simp [emittedShape]]
    rw [readU32_pos _ _ 12 (by simp [u16le, u32le]), readU32_cons]
  · rw [show emittedShape runs flags = (([1, 0] : List Nat) ++ u16le runs.length ++
      u32le (entriesLoop runs (4 + 8 * runs.length)).2 ++
      ([0, 0, 0, 0, 16, 0, 0, 0] : List Nat)) ++
      (u32le (entriesLoop runs (4 + 8 * runs.length)).2 ++
       (entriesBytes (flagEntries (entriesLoop runs (4 + 8 * runs.length)).1 flags) ++
       bodyBytes runs (4 + 8 * runs.length))) by simp [emittedShape]]
    rw [readU32_pos _ _ 16 (by simp [u16le, u32le]), readU32_u32le]
    rw [show (entriesLoop runs (4 + 8 * runs.length)).2 % 4294967296 =
      (entriesLoop runs (4 + 8 * runs.length)).2 by omega]
  · simp only [emittedShape, List.length_append, List.length_cons, List.length_nil,
      entriesBytes_length, flagEntries_length, hnlen, hfl, u16le, u32le]
    omega

/-- A line in canonical form for the codec: it is its own strip (the
encoder strips every line), it encodes to the unit data d, and d parses
back to the very same text.  Lines outside this relation cannot round
trip: the strip removes outer whitespace and the textual forms are not
unique (equal ruby bases collapse, numbers lose leading zeros). -/
def canonLine (cfg : TextConfig) (remap : Bool) (l : PyStr) (d : List Nat) : Prop :=
  pyStrip l = l ∧ string_to_line_data cfg remap l = Except.ok d ∧
  parse_line_string cfg remap d = some l

/-- Plain strip-invariant lines are canonical with data packU16 (l ++ [0]). -/
theorem canonLine_plain (cfg : TextConfig) (remap : Bool) (l : PyStr)
    (hp : ∀ u ∈ l, plainUnit cfg remap u) (hs : pyStrip l = l) :
    canonLine cfg remap l (packU16 (l ++ [TERMINATOR_KEY])) :=
  ⟨hs, string_to_line_data_plain cfg remap l hp, parse_line_string_plain cfg remap l hp⟩

/-- The ciphertext run the encoder produces from one line's decrypted data. -/
def encRunD (d : List Nat) (key : Nat) : List Nat :=
  (encrypt_line_data d key).getD []

/-- The runs the encoder produces from the per-line decrypted data, with
the additive key schedule. -/
def runsOf : List (List Nat) → Nat → List (List Nat)
  | [], _ => []
  | d :: ds, key => encRunD d key :: runsOf ds ((key + ADVANCE_KEY) &&& 0xFFFF)

theorem runsOf_length : ∀ (ds : List (List Nat)) (key : Nat), (runsOf ds key).length = ds.length
  | [], _ => rfl
  | d :: ds, key => by simp [runsOf, runsOf_length ds]

theorem encRunD_spec (d : List Nat) (k : Nat) (hk : k < 65536)
    (heven : d.length % 2 = 0) (hb : ∀ x ∈ d, x < 256) :
    encrypt_line_data d k = some (encRunD d k) ∧
    (encRunD d k).length = d.length ∧
    (∀ x ∈ encRunD d k, x < 256) ∧
    encrypt_line_data (encRunD d k) k = some d := by
  obtain ⟨e, he, hel, heb⟩ := encrypt_ok d k hb hk heven
  have henc : encRunD d k = e := by unfold encRunD; rw [he]; rfl
  have hinv := encrypt_line_data_involutive d k hb hk heven
  rw [he, Option.some_bind] at hinv
  exact ⟨by rw [he, henc], by rw [henc, hel], by rw [henc]; exact heb,
    by rw [henc]; exact hinv⟩

theorem canon_data_facts (cfg : TextConfig) (remap : Bool) :
    ∀ (L : List PyStr) (ds : List (List Nat)),
    List.Forall₂ (canonLine cfg remap) L ds →
    ∀ d ∈ ds, d.length % 2 = 0 ∧ ∀ x ∈ d, x < 256
  | [], [], _ => by simp
  | l :: L, d :: ds, List.Forall₂.cons hcl hrest => by
    intro w hw
    rcases List.mem_cons.mp hw with hw | hw
    · subst hw
      exact string_to_line_data_even cfg remap l w hcl.2.1
    · exact canon_data_facts cfg remap L ds hrest w hw

theorem runsOf_mem_length : ∀ (ds : List (List Nat)) (key : Nat), key < 65536 →
    (∀ d ∈ ds, d.length % 2 = 0 ∧ ∀ x ∈ d, x < 256) →
    ∀ v ∈ runsOf ds key, ∃ d ∈ ds, v.length = d.length
  | [], _, _, _ => by simp [runsOf]
  | d :: ds, key, hk, hfacts => by
    intro v hv
    simp only [runsOf, List.mem_cons] at hv
    rcases hv with hv | hv
    · obtain ⟨heven, hb⟩ := hfacts d (by simp)
      exact ⟨d, by simp, by rw [hv]; exact (encRunD_spec d key hk heven hb).2.1⟩
    · obtain ⟨d2, hd2, he⟩ := runsOf_mem_length ds ((key + ADVANCE_KEY) &&& 0xFFFF)
        (by rw [and_mask_eq_mod]; omega)
        (fun w hw => hfacts w (by simp [hw])) v hv
      exact ⟨d2, by simp [hd2], he⟩

theorem convertLoop_canon (cfg : TextConfig) (remap : Bool) :
    ∀ (L : List PyStr) (ds : List (List Nat)) (i key : Nat), key < 65536 →
    List.Forall₂ (canonLine cfg remap) L ds →
    convertLoop cfg remap false i key L = Except.ok (runsOf ds key)
  | [], [], _, _, _, _ => rfl
  | l :: L, d :: ds, i, key, hk, List.Forall₂.cons hcl hrest => by
    obtain ⟨hstripl, hok, -⟩ := hcl
    obtain ⟨hde, hdb⟩ := string_to_line_data_even cfg remap l d hok
    obtain ⟨henc, -, -, -⟩ := encRunD_spec d key hk hde hdb
    have hs2l : string_to_line_data cfg remap (convertText false i l) = Except.ok d := by
      rw [convertText_false, hstripl]; exact hok
    have hrec := convertLoop_canon cfg remap L ds (i+1) ((key + ADVANCE_KEY) &&& 0xFFFF)
      (by rw [and_mask_eq_mod]; omega) hrest
    simp only [convertLoop, hs2l, henc, hrec]
    rfl

theorem linesLoop_emittedD (cfg : TextConfig) (remap : Bool) :
    ∀ (L : List PyStr) (ds : List (List Nat)) (flags : List Nat) (used : Nat)
      (a B : List Nat) (key : Nat),
    key < 65536 →
    List.Forall₂ (canonLine cfg remap) L ds →
    flags.length = L.length →
    a.length = 16 + used →
    B = a ++ bodyBytes (runsOf ds key) used →
    linesLoop cfg remap B 16 key
      (flagEntries (entriesLoop (runsOf ds key) used).1 flags) = Except.ok L
  | [], [], flags, used, a, B, key, _, _, hfl, _, _ => by
    have hnil : flags = [] := List.eq_nil_of_length_eq_zero (by simpa using hfl)
    subst hnil
    simp [runsOf, entriesLoop, flagEntries, linesLoop]
  | l :: L, d :: ds, flags, used, a, B, key, hk, List.Forall₂.cons hcl hrest, hfl, ha, hB => by
    match flags, hfl with
    | f :: flags, hfl =>
      obtain ⟨hstripl, hok, hparse⟩ := hcl
      obtain ⟨hde, hdb⟩ := string_to_line_data_even cfg remap l d hok
      obtain ⟨henc, hvl, hvb, hdec⟩ := encRunD_spec d key hk hde hdb
      have hk2 : (key + ADVANCE_KEY) &&& 0xFFFF < 65536 := by rw [and_mask_eq_mod]; omega
      simp only [runsOf, entriesLoop, flagEntries, List.zipWith_cons_cons]
      by_cases hpad : (used + (encRunD d key).length) % 4 = 2
      · rw [if_pos hpad]
        have hBav : B = (a ++ encRunD d key) ++
            (0 :: 0 :: bodyBytes (runsOf ds ((key + ADVANCE_KEY) &&& 0xFFFF))
              (used + (encRunD d key).length + 2)) := by
          rw [hB]
          simp only [runsOf, bodyBytes, if_pos hpad]
          simp
        rw [linesLoop]
        dsimp only
        rw [show ((16 : Nat) : Int) + ((used : Nat) : Int) +
            (((encRunD d key).length / 2 * 2 : Nat) : Int) =
          ((a.length : Nat) : Int) + (((encRunD d key).length : Nat) : Int) by omega]
        rw [show ((16 : Nat) : Int) + ((used : Nat) : Int) = ((a.length : Nat) : Int) by omega]
        rw [hBav]
        rw [show (a ++ encRunD d key) ++
            (0 :: 0 :: bodyBytes (runsOf ds ((key + ADVANCE_KEY) &&& 0xFFFF))
              (used + (encRunD d key).length + 2)) =
          a ++ encRunD d key ++
            (0 :: 0 :: bodyBytes (runsOf ds ((key + ADVANCE_KEY) &&& 0xFFFF))
              (used + (encRunD d key).length + 2)) from rfl]
        rw [pySlice_at]
        rw [hdec]
        dsimp only
        rw [hparse]
        dsimp only
        have hrec := linesLoop_emittedD cfg remap L ds flags (used + (encRunD d key).length + 2)
          (a ++ encRunD d key ++ [0, 0])
          (a ++ encRunD d key ++
            0 :: 0 :: bodyBytes (runsOf ds ((key + ADVANCE_KEY) &&& 0xFFFF))
              (used + (encRunD d key).length + 2))
          ((key + ADVANCE_KEY) &&& 0xFFFF) hk2 hrest (by simpa using hfl)
          (by simp only [List.length_append, List.length_cons, List.length_nil]; omega)
          (by simp)
        simp only [flagEntries] at hrec
        rw [hrec]
      · rw [if_neg hpad]
        have hBav : B = (a ++ encRunD d key) ++
            bodyBytes (runsOf ds ((key + ADVANCE_KEY) &&& 0xFFFF))
              (used + (encRunD d key).length) := by
          rw [hB]
          simp only [runsOf, bodyBytes, if_neg hpad]
          simp
        rw [linesLoop]
        dsimp only
        rw [show ((16 : Nat) : Int) + ((used : Nat) : Int) +
            (((encRunD d key).length / 2 * 2 : Nat) : Int) =
          ((a.length : Nat) : Int) + (((encRunD d key).length : Nat) : Int) by omega]
        rw [show ((16 : Nat) : Int) + ((used : Nat) : Int) = ((a.length : Nat) : Int) by omega]
        rw [hBav]
        rw [show (a ++ encRunD d key) ++
            bodyBytes (runsOf ds ((key + ADVANCE_KEY) &&& 0xFFFF))
              (used + (encRunD d key).length) =
          a ++ encRunD d key ++
            bodyBytes (runsOf ds ((key + ADVANCE_KEY) &&& 0xFFFF))
              (used + (encRunD d key).length) from rfl]
        rw [pySlice_at]
        rw [hdec]
        dsimp only
        rw [hparse]
        dsimp only
        have hrec := linesLoop_emittedD cfg remap L ds flags (used + (encRunD d key).length)
          (a ++ encRunD d key)
          (a ++ encRunD d key ++ bodyBytes (runsOf ds ((key + ADVANCE_KEY) &&& 0xFFFF))
            (used + (encRunD d key).length))
          ((key + ADVANCE_KEY) &&& 0xFFFF) hk2 hrest (by simpa using hfl)
          (by simp only [List.length_append]; omega)
          (by simp)
        simp only [flagEntries] at hrec
        rw [hrec]

/-- C1 amended: encoding a list of lines with from_lines and decoding the
produced container returns exactly the original list whenever every line
is invariant under the encoder's per-line normalization: it equals its
own strip (convert_lines_to_data strips each line, which is what the
counterexample exhibits) and its encoded unit data parses back to the
same text.  The canonical-form condition covers escapes, variable
tokens, waits, rubies and table-mapped characters alike; the remaining
hypotheses are the bounds the pack formats force (u16 line count and
entry length, i32 offsets). -/
theorem c1_round_trip_canonical (cfg : TextConfig) (remap : Bool) (L : List PyStr)
    (ds : List (List Nat)) (flags : List Nat)
    (hcanon : List.Forall₂ (canonLine cfg remap) L ds)
    (hdlen : ∀ d ∈ ds, d.length < 131072)
    (hcount : L.length < 65536)
    (hfl : flags.length = L.length)
    (hflb : ∀ g ∈ flags, g < 65536)
    (hsize : (entriesLoop (runsOf ds BASE_KEY) (4 + 8 * L.length)).2 < 2 ^ 31) :
    from_lines cfg remap L flags = Except.ok (emittedShape (runsOf ds BASE_KEY) flags) ∧
    decodeDat cfg remap (emittedShape (runsOf ds BASE_KEY) flags) = Except.ok L := by
  have hrl : (runsOf ds BASE_KEY).length = L.length := by
    rw [runsOf_length, ← hcanon.length_eq]
  have hnlen := entriesLoop_fst_length (runsOf ds BASE_KEY) (4 + 8 * (runsOf ds BASE_KEY).length)
  have hconv2 : convert_lines_to_data cfg remap false L = Except.ok (runsOf ds BASE_KEY) :=
    convertLoop_canon cfg remap L ds 0 BASE_KEY (by decide) hcanon
  have hfl2 : flags.length = (runsOf ds BASE_KEY).length := by rw [hrl]; exact hfl
  have hB := from_lines_shape cfg remap L flags _ hconv2 hfl2
  refine ⟨hB, ?_⟩
  have hsize2 : (entriesLoop (runsOf ds BASE_KEY) (4 + 8 * (runsOf ds BASE_KEY).length)).2 < 2 ^ 31 := by rw [hrl]; exact hsize
  have hcount2 : (runsOf ds BASE_KEY).length < 65536 := by rw [hrl]; exact hcount
  obtain ⟨h0, h2, h4, h8, h12, h16, hlenB⟩ :=
    emittedShape_reads (runsOf ds BASE_KEY) flags hfl2 hsize2 hcount2
  have hmk : mkTextFile (emittedShape (runsOf ds BASE_KEY) flags) = Except.ok () := by
    unfold mkTextFile
    rw [h8]
    dsimp only
    rw [if_neg (by omega : ¬(0 : Nat) ≠ 0)]
    rw [h12, h4]
    rw [h0]
    dsimp only
    rw [if_neg (by rw [hlenB]; omega)]
    rw [h16]
    dsimp only
    rw [if_neg (by omega)]
  have hdf := canon_data_facts cfg remap L ds hcanon
  have hev : ∀ v ∈ (runsOf ds BASE_KEY), v.length % 2 = 0 := by
    intro v hv
    obtain ⟨d, hd, he⟩ := runsOf_mem_length ds BASE_KEY (by decide) hdf v hv
    have := (hdf d hd).1
    omega
  have hfits : ∀ e2 ∈ (flagEntries (entriesLoop (runsOf ds BASE_KEY) (4 + 8 * (runsOf ds BASE_KEY).length)).1 flags), entryFits e2 := by
    intro e2 he2
    obtain ⟨e, he, g, hg, rfl⟩ := flagEntries_mem _ _ _ he2
    obtain ⟨u, hu, -, -, huub⟩ := entriesLoop_offsets _ _ (by omega) hev e he
    obtain ⟨v, hv, hevlen⟩ := entriesLoop_lengths _ _ e he
    obtain ⟨d, hd, hvd⟩ := runsOf_mem_length ds BASE_KEY (by decide) hdf v hv
    have hdb := hdlen d hd
    refine ⟨⟨u, by simpa using hu, by omega⟩, ?_, by simpa using hflb g hg⟩
    show e.length < 65536
    omega
  have hentread : readEntries (emittedShape (runsOf ds BASE_KEY) flags) 20 (runsOf ds BASE_KEY).length = some (flagEntries (entriesLoop (runsOf ds BASE_KEY) (4 + 8 * (runsOf ds BASE_KEY).length)).1 flags) := by
    have hre := readEntries_entriesBytes (flagEntries (entriesLoop (runsOf ds BASE_KEY) (4 + 8 * (runsOf ds BASE_KEY).length)).1 flags) (([1, 0] : List Nat) ++ u16le (runsOf ds BASE_KEY).length ++ u32le (entriesLoop (runsOf ds BASE_KEY) (4 + 8 * (runsOf ds BASE_KEY).length)).2 ++ ([0, 0, 0, 0, 16, 0, 0, 0] : List Nat) ++ u32le (entriesLoop (runsOf ds BASE_KEY) (4 + 8 * (runsOf ds BASE_KEY).length)).2) (bodyBytes (runsOf ds BASE_KEY) (4 + 8 * (runsOf ds BASE_KEY).length)) 20
      (by simp [u16le, u32le]) hfits
    rw [show ((flagEntries (entriesLoop (runsOf ds BASE_KEY) (4 + 8 * (runsOf ds BASE_KEY).length)).1 flags)).length = (runsOf ds BASE_KEY).length by rw [flagEntries_length, hnlen]; omega] at hre
    rw [show (emittedShape (runsOf ds BASE_KEY) flags) = (([1, 0] : List Nat) ++ u16le (runsOf ds BASE_KEY).length ++ u32le (entriesLoop (runsOf ds BASE_KEY) (4 + 8 * (runsOf ds BASE_KEY).length)).2 ++ ([0, 0, 0, 0, 16, 0, 0, 0] : List Nat) ++ u32le (entriesLoop (runsOf ds BASE_KEY) (4 + 8 * (runsOf ds BASE_KEY).length)).2) ++ (entriesBytes (flagEntries (entriesLoop (runsOf ds BASE_KEY) (4 + 8 * (runsOf ds BASE_KEY).length)).1 flags) ++ (bodyBytes (runsOf ds BASE_KEY) (4 + 8 * (runsOf ds BASE_KEY).length))) by simp [emittedShape]]
    exact hre
  have hlines : linesLoop cfg remap (emittedShape (runsOf ds BASE_KEY) flags) 16 BASE_KEY (flagEntries (entriesLoop (runsOf ds BASE_KEY) (4 + 8 * (runsOf ds BASE_KEY).length)).1 flags) = Except.ok L := by
    exact linesLoop_emittedD cfg remap L ds flags (4 + 8 * (runsOf ds BASE_KEY).length)
      ((([1, 0] : List Nat) ++ u16le (runsOf ds BASE_KEY).length ++ u32le (entriesLoop (runsOf ds BASE_KEY) (4 + 8 * (runsOf ds BASE_KEY).length)).2 ++ ([0, 0, 0, 0, 16, 0, 0, 0] : List Nat) ++ u32le (entriesLoop (runsOf ds BASE_KEY) (4 + 8 * (runsOf ds BASE_KEY).length)).2) ++ entriesBytes (flagEntries (entriesLoop (runsOf ds BASE_KEY) (4 + 8 * (runsOf ds BASE_KEY).length)).1 flags)) (emittedShape (runsOf ds BASE_KEY) flags) BASE_KEY (by decide) hcanon hfl
      (by
        simp only [List.length_append, List.length_cons, List.length_nil,
          entriesBytes_length, flagEntries_length, hnlen, u16le, u32le]
        omega)
      (by simp [emittedShape])
  unfold decodeDat
  rw [hmk]
  unfold textFileLines
  rw [h2, h12]
  dsimp only
  rw [show (16 + 4 : Nat) = 20 from rfl]
  rw [hentread]
  dsimp only
  exact hlines

theorem c1_round_trip_canonical_witness :
    from_lines lgpeConfig true [codes "[WAIT 30]"] [0] =
      Except.ok (emittedShape (runsOf [[16, 0, 2, 0, 2, 190, 30, 0, 0, 0]] BASE_KEY) [0]) ∧
    decodeDat lgpeConfig true
        (emittedShape (runsOf [[16, 0, 2, 0, 2, 190, 30, 0, 0, 0]] BASE_KEY) [0]) =
      Except.ok [codes "[WAIT 30]"] :=
  c1_round_trip_canonical lgpeConfig true [codes "[WAIT 30]"]
    [[16, 0, 2, 0, 2, 190, 30, 0, 0, 0]] [0]
    (List.Forall₂.cons ⟨rfl, rfl, rfl⟩ List.Forall₂.nil)
    (by decide) (by decide) rfl (by decide) (by decide)
